import Mathlib

/-!
# Diffie-Hellman exchange, key-fixing relay and MT19937 stream cipher

A shallow embedding of `set5/34.go` (the roles `Client`, `StartServer`,
`StartMITMServer`) and of `set3/24.go` (`CryptBlocks`).

Arbitrary-precision integers (`big.Int`) are `Nat`; byte slices are lists of
`Nat`.  Library primitives that live outside the repository (the hash, the
CBC cipher, the gob codec) are fields of `Primitives`: the general theorems
hold for all of them, and `samplePrimitives` and `blockPrimitives` are two
instances on which the roles are run on concrete inputs.  The network and the random source are explicit
inputs: a connection carries the frames its peer will deliver, and `Env`
carries the random draws and the results of `net.Dial`.
-/

namespace set_three

/-- Byte slices. -/
abbrev Bytes := List Nat

/-- The generator's `Extract` called `i + 1` times from state `mt`: the value returned by the
last call.  `Extract` itself (the MT19937 generator) is a parameter: it
returns a 32-bit output and the next generator state. -/
def extractNth {σ : Type} (Extract : σ → Nat × σ) : σ → Nat → Nat
  | mt, 0 => (Extract mt).1
  | mt, i + 1 => extractNth Extract (Extract mt).2 i

/-- The loop `for i, b := range src { dst[i] = b ^ byte(mt.Extract()&0xFF) }`,
started at index `i`.  Returns the generator state and the buffer `dst`
after the loop. -/
def cryptLoop {σ : Type} (Extract : σ → Nat × σ) : σ → Nat → Bytes → Bytes → σ × Bytes
  | mt, _, dst, [] => (mt, dst)
  | mt, i, dst, b :: src =>
    let r := Extract mt
    cryptLoop Extract r.2 (i + 1) (dst.set i (b ^^^ ((r.1 &&& 0xFF) % 256))) src

/-- The method `func (mt *mersenneTwister) CryptBlocks(dst, src []byte)`.  The result is
`none` when the function panics (`output smaller than input`), otherwise the
generator state and the contents of `dst` on return.  `dst` and `src` are
taken to be distinct buffers. -/
def CryptBlocks {σ : Type} (Extract : σ → Nat × σ) (mt : σ) (dst src : Bytes) :
    Option (σ × Bytes) :=
  if dst.length < src.length then none
  else some (cryptLoop Extract mt 0 dst src)

/-- The bytes of `src`, each XORed with the low 8 bits of the successive
`Extract` outputs from state `mt`: the keystream applied to `src`. -/
def keystreamXor {σ : Type} (Extract : σ → Nat × σ) : σ → Bytes → Bytes
  | _, [] => []
  | mt, b :: src => (b ^^^ ((Extract mt).1 % 256)) :: keystreamXor Extract (Extract mt).2 src

end set_three

namespace set_five

/-- Byte slices. -/
abbrev Bytes := List Nat

/-- The constant `SECRET_MESSAGE`. -/
def SECRET_MESSAGE : String := "Go Ninja, Go Ninja, GO: Go Ninja, Go Ninja, GO!"

/-- The conversion `[]byte(s)` for an ASCII string. -/
def bytesOf (s : String) : Bytes := s.toList.map Char.toNat

/-- Modelled from the spec: `DHGroup`, the type of `DHSession.Group` and
`DHExchange.Group` (its declaration is not in `34.go`): prime modulus `P`
and generator `G`. -/
structure DHGroup where
  P : Nat
  G : Nat
deriving DecidableEq, Repr

/-- Modelled from the spec: `DHExchange`, the handshake payload (its
declaration is not in `34.go`); `34.go` builds it as
`DHExchange{sess.Group, sess.PublicKey}` and reads `e.Group`, `e.PublicKey`. -/
structure DHExchange where
  Group : DHGroup
  PublicKey : Nat
deriving DecidableEq, Repr

/-- Modelled from the spec: `DHSession` (its declaration is not in `34.go`):
group, public value, private exponent and the derived key, absent until key
agreement. -/
structure DHSession where
  Group : DHGroup
  PublicKey : Nat
  privateKey : Nat
  sessionKey : Option Bytes
deriving DecidableEq, Repr

/-- The two frame types. -/
inductive MessageType where
  | DHE_MSG_EXCHANGE
  | DHE_MSG_ENCRYPTED
deriving DecidableEq, Repr

/-- One frame on the wire: an EXCHANGE frame carries the serialized
exchange, an ENCRYPTED frame carries ciphertext and IV. -/
inductive Frame where
  | exchange (payload : Bytes)
  | encrypted (ciphertext : Bytes) (iv : Bytes)
deriving DecidableEq, Repr

/-- Library primitives used by the protocol: the hash (`SHA1`), the CBC
cipher, and the gob codec used by `encode`. -/
structure Primitives where
  hash : Bytes → Bytes
  encrypt : Bytes → Bytes → Bytes → Bytes
  decrypt : Bytes → Bytes → Bytes → Option Bytes
  gobEncode : DHExchange → Option Bytes
  gobDecode : Bytes → Option DHExchange

/-- Big-endian bytes of `n` without leading zeros, with `fuel` digits at most. -/
def natBytesAux : Nat → Nat → Bytes → Bytes
  | 0, _, acc => acc
  | fuel + 1, n, acc => if n = 0 then acc else natBytesAux fuel (n / 256) (n % 256 :: acc)

/-- The big-endian byte representation of `n` (`big.Int.Bytes`): no leading
zero byte, and the empty slice for `0`. -/
def natBytes (n : Nat) : Bytes := natBytesAux n n []

/-- Modelled from the spec: `NewDHSession(p, g)` (its body is not in
`34.go`): fails when `P ≤ 2`, otherwise takes the private exponent `d` drawn
by the random source (the spec draws it from `[1, P-1)`) and computes the
public value `G^d mod P`.  No key is set. -/
def NewDHSession (p g d : Nat) : Option DHSession :=
  if p ≤ 2 then none
  else some { Group := ⟨p, g⟩, PublicKey := g ^ d % p, privateKey := d, sessionKey := none }

/-- Modelled from the spec: the shared secret of `GenerateSessionKeys`,
`peerPublic^d mod P`. -/
def DHSession.sharedSecret (s : DHSession) (peerPublic : Nat) : Nat :=
  peerPublic ^ s.privateKey % s.Group.P

/-- Modelled from the spec: `(*DHSession).GenerateSessionKeys(peerPublic)`
(its body is not in `34.go`): the key is the first 16 bytes of the hash of
the big-endian bytes of the shared secret. -/
def DHSession.GenerateSessionKeys (pr : Primitives) (s : DHSession) (peerPublic : Nat) :
    DHSession :=
  { s with sessionKey := some ((pr.hash (natBytes (s.sharedSecret peerPublic))).take 16) }

/-- The function `encode(data)`: gob-encodes an exchange; `none` is the error return. -/
def encode (pr : Primitives) (e : DHExchange) : Option Bytes := pr.gobEncode e

/-- A duplex byte stream as seen from one endpoint: the frames the peer will
deliver, in order (a read on an exhausted stream fails), and the number of
writes that succeed before the stream breaks. -/
structure Conn where
  id : Nat
  incoming : List Frame
  writable : Nat
deriving DecidableEq, Repr

/-- The random source and the dialer: the private exponents and the IVs
that will be drawn, and the results of the successive `net.Dial` calls
(`none` is a failed dial). -/
structure Env where
  exps : List Nat
  ivs : List Bytes
  dials : List (Option Conn)
deriving DecidableEq, Repr

/-- The next private exponent drawn. -/
def Env.nextExp (env : Env) : Nat × Env :=
  (env.exps.headD 0, { env with exps := env.exps.tail })

/-- The next IV drawn. -/
def Env.nextIV (env : Env) : Bytes × Env :=
  (env.ivs.headD [], { env with ivs := env.ivs.tail })

/-- The result of the next `net.Dial`. -/
def Env.nextDial (env : Env) : Option Conn × Env :=
  (env.dials.headD none, { env with dials := env.dials.tail })

/-- Modelled from the spec: `DHClient` (its declaration is not in `34.go`),
built there as `&DHClient{name, conn, session}`. -/
structure DHClient where
  Name : String
  conn : Conn
  session : Option DHSession
deriving DecidableEq, Repr

/-- The value `ReadMessage` returns (an `interface{}` in the source). -/
inductive Message where
  | DHExchange (e : DHExchange)
  | DHEncrypted (ciphertext : Bytes) (iv : Bytes)
deriving DecidableEq, Repr

/-- What a role does, in order.  A call on a channel is tagged with the
`DHClient` name and the connection and records what crossed the wire:
`send` whether the frame was written, `readMessage` the frame taken off the
stream and whether a message was returned, `sendEncrypted` the frame
written (`none` when the call fails), `readEncrypted` the frame taken off
the stream and the plaintext returned (`none` is an error). -/
inductive Event where
  | accept (conn : Nat)
  | acceptError
  | dial (conn : Nat)
  | dialError
  | newSessionError
  | encodeError
  | readMessage (name : String) (conn : Nat) (t : MessageType) (frame : Option Frame)
      (ok : Bool)
  | generateSessionKeys (name : String) (peerPublic : Nat) (key : Option Bytes)
  | send (name : String) (conn : Nat) (b : Bytes) (ok : Bool)
  | readEncrypted (name : String) (conn : Nat) (frame : Option Frame) (result : Option Bytes)
  | sendEncrypted (name : String) (conn : Nat) (plaintext : Bytes) (frame : Option Frame)
  | close (conn : Nat)
  | closeListener
  | panic
deriving DecidableEq, Repr

/-- One call on a channel: what it returns, the channel and the random
source after it, and the event it leaves. -/
structure Step (α : Type) where
  result : α
  client : DHClient
  env : Env
  event : Event

/-- The session key of a channel, if its session has one. -/
def DHClient.key (c : DHClient) : Option Bytes := c.session.bind (fun s => s.sessionKey)

/-- The channel after one write: a stream that can still be written loses
one unit of `writable`. -/
def DHClient.afterWrite (c : DHClient) : DHClient :=
  { c with conn := { c.conn with writable := c.conn.writable - 1 } }

/-- The channel after `SendEncrypted`: a channel without a key writes
nothing, a keyed one makes one write. -/
def DHClient.afterSealed (c : DHClient) : DHClient :=
  { c with
    conn := { c.conn with writable := c.conn.writable - (if c.key.isSome then 1 else 0) } }

/-- The channel after one frame was taken off its stream. -/
def DHClient.afterRead (c : DHClient) : DHClient :=
  { c with conn := { c.conn with incoming := c.conn.incoming.tail } }

/-- Modelled from the spec: `(*DHClient).Send(b)` (its body is not in
`34.go`): writes the serialized exchange as one EXCHANGE frame.  The source
discards whatever `Send` returns, so a broken stream only loses the frame. -/
def DHClient.Send (c : DHClient) (b : Bytes) (env : Env) : Step Unit :=
  { result := ()
    client := c.afterWrite
    env := env
    event := Event.send c.Name c.conn.id b (decide (0 < c.conn.writable)) }

/-- What `ReadMessage(t)` decodes from the next frame of the stream: `none`
when the stream is exhausted, the frame type is not `t`, or the payload does
not decode. -/
def DHClient.decoded (pr : Primitives) (c : DHClient) (t : MessageType) : Option Message :=
  match c.conn.incoming.head?, t with
  | some (Frame.exchange payload), MessageType.DHE_MSG_EXCHANGE =>
    (pr.gobDecode payload).map Message.DHExchange
  | some (Frame.encrypted ct iv), MessageType.DHE_MSG_ENCRYPTED =>
    some (Message.DHEncrypted ct iv)
  | _, _ => none

/-- Modelled from the spec: `(*DHClient).ReadMessage(t)` (its body is not in
`34.go`): reads one frame and decodes it.  The Go signature has no error
result: a failure (`none`) is fatal at the call site. -/
def DHClient.ReadMessage (pr : Primitives) (c : DHClient) (t : MessageType) (env : Env) :
    Step (Option Message) :=
  { result := c.decoded pr t
    client := c.afterRead
    env := env
    event := Event.readMessage c.Name c.conn.id t c.conn.incoming.head?
      (c.decoded pr t).isSome }

/-- The frame `SendEncrypted(plaintext)` writes with the fresh IV `iv`:
none when the session has no key or the stream is broken, otherwise the CBC
encryption of the plaintext under the session key and `iv`, with `iv`
attached. -/
def DHClient.sealed (pr : Primitives) (c : DHClient) (plaintext iv : Bytes) : Option Frame :=
  match c.key with
  | none => none
  | some key =>
    if 0 < c.conn.writable then some (Frame.encrypted (pr.encrypt key iv plaintext) iv)
    else none

/-- Modelled from the spec: `(*DHClient).SendEncrypted(plaintext)` (its body
is not in `34.go`): fails when the session has no key; otherwise draws a
fresh IV, encrypts under CBC with the session key and that IV, and writes
one ENCRYPTED frame carrying ciphertext and IV; fails when the write does.
The result is `err == nil`. -/
def DHClient.SendEncrypted (pr : Primitives) (c : DHClient) (plaintext : Bytes) (env : Env) :
    Step Bool :=
  { result := (c.sealed pr plaintext env.nextIV.1).isSome
    client := c.afterSealed
    env := if c.key.isSome then env.nextIV.2 else env
    event := Event.sendEncrypted c.Name c.conn.id plaintext
      (c.sealed pr plaintext env.nextIV.1) }

/-- The plaintext `ReadEncrypted` returns for the next frame of the stream:
the decryption of its ciphertext under the session key and its IV; none when
the stream is exhausted, the frame is not an ENCRYPTED frame, the session has
no key, or decryption fails. -/
def DHClient.opened (pr : Primitives) (c : DHClient) : Option Bytes :=
  match c.key, c.conn.incoming.head? with
  | some key, some (Frame.encrypted ct iv) => pr.decrypt key iv ct
  | _, _ => none

/-- Modelled from the spec: `(*DHClient).ReadEncrypted()` (its body is not in
`34.go`): reads one frame, takes its IV and decrypts the ciphertext with the
session key.  The result `none` is a non-nil `err`. -/
def DHClient.ReadEncrypted (pr : Primitives) (c : DHClient) (env : Env) :
    Step (Option Bytes) :=
  { result := c.opened pr
    client := c.afterRead
    env := env
    event := Event.readEncrypted c.Name c.conn.id c.conn.incoming.head? (c.opened pr) }

/-- How the handling of one connection, or a role, ends: `ok` (the loop
body ran to its end, or `Client` returned `nil`), `failed` (`Client`
returned an error), `panicked`, or `blocked` (the accept loop waits for a
connection that never comes). -/
inductive Outcome where
  | ok
  | failed
  | panicked
  | blocked
deriving DecidableEq, Repr

/-- The observable result of running a piece of a role: its events, how it
ended, the random source and dialer left over, and the connections whose
`Close` was deferred to the exit of the enclosing function. -/
structure Run where
  events : List Event
  outcome : Outcome
  env : Env
  deferred : List Nat
deriving DecidableEq, Repr

/-- The body of the accept loop of `StartServer` for one accepted
connection `conn` (lines 83-108). -/
def StartServer.iteration (pr : Primitives) (conn : Conn) (env : Env) : Run :=
  let server : DHClient := ⟨"Bob", conn, none⟩
  let exchange := server.ReadMessage pr MessageType.DHE_MSG_EXCHANGE env
  match exchange.result with
  | some (Message.DHExchange e) =>
    -- Server = Bob, Client = Alice
    match NewDHSession e.Group.P e.Group.G exchange.env.nextExp.1 with
    | none =>
      ⟨[exchange.event, Event.newSessionError, Event.panic], Outcome.panicked,
        exchange.env.nextExp.2, []⟩
    | some session =>
      let session := session.GenerateSessionKeys pr e.PublicKey
      let server : DHClient := { exchange.client with session := some session }
      let keyed := Event.generateSessionKeys server.Name e.PublicKey session.sessionKey
      -- Send over our public key in an exchange object so Alice can generate s
      let e : DHExchange := { e with PublicKey := session.PublicKey }
      match encode pr e with
      | none =>
        ⟨[exchange.event, keyed, Event.encodeError, Event.panic], Outcome.panicked,
          exchange.env.nextExp.2, []⟩
      | some b =>
        let sent := server.Send b exchange.env.nextExp.2
        -- Now we're expecting Alice to send an encrypted message
        let read := sent.client.ReadEncrypted pr sent.env
        match read.result with
        | none =>
          ⟨[exchange.event, keyed, sent.event, read.event, Event.panic], Outcome.panicked,
            read.env, []⟩
        | some message =>
          let echo := read.client.SendEncrypted pr message read.env
          match echo.result with
          | false =>
            ⟨[exchange.event, keyed, sent.event, read.event, echo.event, Event.panic],
              Outcome.panicked, echo.env, []⟩
          | true =>
            ⟨[exchange.event, keyed, sent.event, read.event, echo.event], Outcome.ok,
              echo.env, []⟩
  | _ => ⟨[exchange.event, Event.panic], Outcome.panicked, exchange.env, []⟩

/-- The accept loop of `StartServer` (lines 76-109) over the successive
results of `socket.Accept()` (`none` is an accept error).  A panic in the
body leaves the loop; when no connection is left the loop waits in
`Accept`. -/
def StartServer.loop (pr : Primitives) : List (Option Conn) → Env → Run
  | [], env => ⟨[], Outcome.blocked, env, []⟩
  | none :: rest, env =>
    -- log.Println("Error establishing connection:", err); continue
    let r := StartServer.loop pr rest env
    { r with events := Event.acceptError :: r.events }
  | some conn :: rest, env =>
    let h := StartServer.iteration pr conn env
    match h.outcome with
    | Outcome.ok =>
      let r := StartServer.loop pr rest h.env
      { r with events := Event.accept conn.id :: (h.events ++ r.events) }
    | _ => { h with events := Event.accept conn.id :: h.events }

/-- Runs the deferred calls of a function that leaves by a panic or a
return: the deferred `Close` calls, last deferred first, then the deferred
`socket.Close()` when `listener` is set.  A role that waits in `Accept` has
not left. -/
def runDeferred (r : Run) (listener : Bool) : Run :=
  match r.outcome with
  | Outcome.blocked => r
  | _ =>
    { r with
      events := r.events ++ r.deferred.map Event.close ++
        (if listener then [Event.closeListener] else [])
      deferred := [] }

/-- The role `func StartServer(listen string)`: `listen` tells whether `net.Listen`
succeeds, `accepts` are the successive results of `socket.Accept()`. -/
def StartServer (pr : Primitives) (listen : Bool) (accepts : List (Option Conn)) (env : Env) :
    Run :=
  if listen then runDeferred (StartServer.loop pr accepts env) true
  else ⟨[Event.panic], Outcome.panicked, env, []⟩

/-- The body of the accept loop of `StartMITMServer` for one accepted
connection `conn` (lines 131-187). -/
def StartMITMServer.iteration (pr : Primitives) (conn : Conn) (env : Env) : Run :=
  let server : DHClient := ⟨"Eve", conn, none⟩
  let exchange := server.ReadMessage pr MessageType.DHE_MSG_EXCHANGE env
  match exchange.result with
  | some (Message.DHExchange e) =>
    match NewDHSession e.Group.P e.Group.G exchange.env.nextExp.1 with
    | none =>
      ⟨[exchange.event, Event.newSessionError, Event.panic], Outcome.panicked,
        exchange.env.nextExp.2, []⟩
    | some session =>
      -- Use p for generating Eve's session keys so that we generate the same
      -- session key between the two sessions
      let session := session.GenerateSessionKeys pr e.Group.P
      let server : DHClient := { exchange.client with session := some session }
      let keyed := Event.generateSessionKeys server.Name e.Group.P session.sessionKey
      -- Use P for the public key to make the session key predictable
      let e : DHExchange := { e with PublicKey := e.Group.P }
      -- Encode/send exchange object with fixed key to Alice
      match encode pr e with
      | none =>
        ⟨[exchange.event, keyed, Event.encodeError, Event.panic], Outcome.panicked,
          exchange.env.nextExp.2, []⟩
      | some b =>
        let sent := server.Send b exchange.env.nextExp.2
        -- Establish fixed-key MITM connection to Bob
        match sent.env.nextDial.1 with
        | none =>
          ⟨[exchange.event, keyed, sent.event, Event.dialError, Event.panic], Outcome.panicked,
            sent.env.nextDial.2, []⟩
        | some clientConn =>
          -- defer clientConn.Close()
          let dialed := Event.dial clientConn.id
          match NewDHSession e.Group.P e.Group.G sent.env.nextDial.2.nextExp.1 with
          | none =>
            ⟨[exchange.event, keyed, sent.event, dialed, Event.newSessionError, Event.panic],
              Outcome.panicked, sent.env.nextDial.2.nextExp.2, [clientConn.id]⟩
          | some clientSession =>
            -- NOTE(dw): This doesn't seem right -- might break here
            let clientSession : DHSession := { clientSession with PublicKey := e.Group.P }
            let client : DHClient := ⟨"EveClient", clientConn, some clientSession⟩
            let csent := client.Send b sent.env.nextDial.2.nextExp.2
            -- We don't actually need Bob's public key because our fixed-key attack has
            -- made the session key preditable.
            let bob := csent.client.ReadMessage pr MessageType.DHE_MSG_EXCHANGE csent.env
            match bob.result with
            | none =>
              ⟨[exchange.event, keyed, sent.event, dialed, csent.event, bob.event, Event.panic],
                Outcome.panicked, bob.env, [clientConn.id]⟩
            | some _ =>
              let clientSession := clientSession.GenerateSessionKeys pr e.Group.P
              let client : DHClient := { bob.client with session := some clientSession }
              let ckeyed :=
                Event.generateSessionKeys client.Name e.Group.P clientSession.sessionKey
              let pre := [exchange.event, keyed, sent.event, dialed, csent.event, bob.event,
                ckeyed]
              -- Now we're expecting Alice to send an encrypted message
              let read := sent.client.ReadEncrypted pr bob.env
              match read.result with
              | none =>
                ⟨pre ++ [read.event, Event.panic], Outcome.panicked, read.env, [clientConn.id]⟩
              | some message =>
                let fwd := client.SendEncrypted pr message read.env
                match fwd.result with
                | false =>
                  ⟨pre ++ [read.event, fwd.event, Event.panic], Outcome.panicked, fwd.env,
                    [clientConn.id]⟩
                | true =>
                  let cread := fwd.client.ReadEncrypted pr fwd.env
                  match cread.result with
                  | none =>
                    ⟨pre ++ [read.event, fwd.event, cread.event, Event.panic],
                      Outcome.panicked, cread.env, [clientConn.id]⟩
                  | some message =>
                    let back := read.client.SendEncrypted pr message cread.env
                    match back.result with
                    | false =>
                      ⟨pre ++ [read.event, fwd.event, cread.event, back.event, Event.panic],
                        Outcome.panicked, back.env, [clientConn.id]⟩
                    | true =>
                      ⟨pre ++ [read.event, fwd.event, cread.event, back.event], Outcome.ok,
                        back.env, [clientConn.id]⟩
  | _ => ⟨[exchange.event, Event.panic], Outcome.panicked, exchange.env, []⟩

/-- The accept loop of `StartMITMServer` (lines 124-188).  `deferred` are
the connections whose `Close` earlier iterations deferred, last first: a
`defer` inside the loop runs when `StartMITMServer` exits, not at the end of
the iteration. -/
def StartMITMServer.loop (pr : Primitives) : List (Option Conn) → Env → List Nat → Run
  | [], env, deferred => ⟨[], Outcome.blocked, env, deferred⟩
  | none :: rest, env, deferred =>
    -- log.Println("Error establishing connection:", err); continue
    let r := StartMITMServer.loop pr rest env deferred
    { r with events := Event.acceptError :: r.events }
  | some conn :: rest, env, deferred =>
    let h := StartMITMServer.iteration pr conn env
    match h.outcome with
    | Outcome.ok =>
      let r := StartMITMServer.loop pr rest h.env (h.deferred ++ deferred)
      { r with events := Event.accept conn.id :: (h.events ++ r.events) }
    | _ =>
      { h with events := Event.accept conn.id :: h.events, deferred := h.deferred ++ deferred }

/-- The role `func StartMITMServer(listen, dest string)`: `listen` tells whether
`net.Listen` succeeds, `accepts` are the successive results of
`socket.Accept()`, and the results of dialing `dest` are in `env`. -/
def StartMITMServer (pr : Primitives) (listen : Bool) (accepts : List (Option Conn))
    (env : Env) : Run :=
  if listen then runDeferred (StartMITMServer.loop pr accepts env []) true
  else ⟨[Event.panic], Outcome.panicked, env, []⟩

/-- The body of `Client` for the group `(p, g)`, up to the deferred
`conn.Close()`. -/
def Client.body (pr : Primitives) (p g : Nat) (env : Env) : Run :=
  match NewDHSession p g env.nextExp.1 with
  | none => ⟨[Event.newSessionError, Event.panic], Outcome.panicked, env.nextExp.2, []⟩
  | some sess =>
    let exchange : DHExchange := ⟨sess.Group, sess.PublicKey⟩
    match encode pr exchange with
    | none => ⟨[Event.encodeError], Outcome.failed, env.nextExp.2, []⟩
    | some b =>
      match env.nextExp.2.nextDial.1 with
      | none => ⟨[Event.dialError], Outcome.failed, env.nextExp.2.nextDial.2, []⟩
      | some conn =>
        -- defer conn.Close()
        let dialed := Event.dial conn.id
        let client : DHClient := ⟨"Alice", conn, some sess⟩
        let sent := client.Send b env.nextExp.2.nextDial.2
        let server := sent.client.ReadMessage pr MessageType.DHE_MSG_EXCHANGE sent.env
        match server.result with
        | some (Message.DHExchange bob) =>
          let sess := sess.GenerateSessionKeys pr bob.PublicKey
          let client : DHClient := { server.client with session := some sess }
          let keyed := Event.generateSessionKeys client.Name bob.PublicKey sess.sessionKey
          -- Now that we have the session key, send the secret message to Bob
          let secret := client.SendEncrypted pr (bytesOf SECRET_MESSAGE) server.env
          match secret.result with
          | false =>
            ⟨[dialed, sent.event, server.event, keyed, secret.event], Outcome.failed,
              secret.env, [conn.id]⟩
          | true =>
            let echo := secret.client.ReadEncrypted pr secret.env
            match echo.result with
            | none =>
              ⟨[dialed, sent.event, server.event, keyed, secret.event, echo.event],
                Outcome.failed, echo.env, [conn.id]⟩
            | some _ =>
              ⟨[dialed, sent.event, server.event, keyed, secret.event, echo.event],
                Outcome.ok, echo.env, [conn.id]⟩
        | _ =>
          ⟨[dialed, sent.event, server.event, Event.panic], Outcome.panicked, server.env,
            [conn.id]⟩

/-- The role `func Client(connect string) error`: the group is `P = 37`, `G = 5`; the
deferred `conn.Close()` runs on every exit after a successful dial. -/
def Client (pr : Primitives) (env : Env) : Run :=
  runDeferred (Client.body pr 37 5 env) false

/-- The key every session derives from the shared secret `0`. -/
def degenerateKey (pr : Primitives) : Bytes := (pr.hash (natBytes 0)).take 16

/-- Monitor for the order of calls in a trace: `keyed` are the channels
whose session has had `GenerateSessionKeys` called.  It rejects a
`SendEncrypted` or `ReadEncrypted` on a channel not yet keyed, and a
`ReadMessage` on such a channel for any type but EXCHANGE. -/
def keyedBeforeUse : List String → List Event → Bool
  | _, [] => true
  | keyed, Event.generateSessionKeys name _ _ :: rest => keyedBeforeUse (name :: keyed) rest
  | keyed, Event.sendEncrypted name _ _ _ :: rest =>
    decide (name ∈ keyed) && keyedBeforeUse keyed rest
  | keyed, Event.readEncrypted name _ _ _ :: rest =>
    decide (name ∈ keyed) && keyedBeforeUse keyed rest
  | keyed, Event.readMessage name _ t _ _ :: rest =>
    (decide (name ∈ keyed) || decide (t = MessageType.DHE_MSG_EXCHANGE)) &&
      keyedBeforeUse keyed rest
  | keyed, _ :: rest => keyedBeforeUse keyed rest

/-- Monitor for plaintext pass-through: `last` is the channel and plaintext
of the latest successful `ReadEncrypted` not yet passed on.  It rejects a
`SendEncrypted` on channel `n` whose plaintext is not the one `ReadEncrypted`
last returned on channel `source n`. -/
def passesPlaintext (source : String → String) :
    Option (String × Bytes) → List Event → Bool
  | _, [] => true
  | _, Event.readEncrypted name _ _ result :: rest =>
    passesPlaintext source (result.map (fun m => (name, m))) rest
  | last, Event.sendEncrypted name _ m _ :: rest =>
    decide (last = some (source name, m)) && passesPlaintext source none rest
  | last, _ :: rest => passesPlaintext source last rest

/-- The other leg of the relay. -/
def otherLeg (name : String) : String :=
  if name = "Eve" then "EveClient" else "Eve"

/-- The frame an event writes on connection `c`, if any. -/
def Event.writes (c : Nat) : Event → Option Frame
  | Event.send _ c1 b ok => if ok = true ∧ c1 = c then some (Frame.exchange b) else none
  | Event.sendEncrypted _ c1 _ frame => if c1 = c then frame else none
  | _ => none

/-- The frame an event takes off the stream of connection `c`, if any. -/
def Event.takes (c : Nat) : Event → Option Frame
  | Event.readMessage _ c1 _ frame _ => if c1 = c then frame else none
  | Event.readEncrypted _ c1 frame _ => if c1 = c then frame else none
  | _ => none

/-- The frames written on connection `c`, in order. -/
def written (c : Nat) (evs : List Event) : List Frame := evs.filterMap (Event.writes c)

/-- The frames taken off the stream of connection `c`, in order. -/
def taken (c : Nat) (evs : List Event) : List Frame := evs.filterMap (Event.takes c)

/-- The ENCRYPTED frames among `fs`. -/
def encryptedOnly (fs : List Frame) : List Frame :=
  fs.filter (fun f => match f with
    | Frame.encrypted _ _ => true
    | Frame.exchange _ => false)

/-- An event that reports a failed step of the handling of a connection. -/
def Event.isFailure : Event → Bool
  | Event.dialError => true
  | Event.newSessionError => true
  | Event.encodeError => true
  | Event.readMessage _ _ _ _ ok => !ok
  | Event.readEncrypted _ _ _ result => result.isNone
  | Event.sendEncrypted _ _ _ frame => frame.isNone
  | _ => false

/-- The connections open after the events `evs`, given those open before:
`accept` and `dial` open a connection, `close` closes it. -/
def openConns : List Nat → List Event → List Nat
  | open_, [] => open_
  | open_, Event.accept c :: rest => openConns (c :: open_) rest
  | open_, Event.dial c :: rest => openConns (c :: open_) rest
  | open_, Event.close c :: rest => openConns (open_.filter (fun x => x != c)) rest
  | open_, _ :: rest => openConns open_ rest

/-- A small instance of the library primitives, used to run the roles on
concrete inputs: a one-byte checksum for the hash, a byte-wise XOR with a
byte derived from key and IV for the cipher, and the three numbers of an
exchange for the codec. -/
def samplePrimitives : Primitives where
  hash := fun b => List.replicate 20 (b.foldl (fun acc x => (31 * acc + x + 7) % 256) 1)
  encrypt := fun key iv pt => pt.map (fun x => x ^^^ ((key.sum + iv.sum) % 256))
  decrypt := fun key iv ct => some (ct.map (fun x => x ^^^ ((key.sum + iv.sum) % 256)))
  gobEncode := fun e => some [e.Group.P, e.Group.G, e.PublicKey]
  gobDecode := fun b =>
    match b with
    | [p, g, k] => some ⟨⟨p, g⟩, k⟩
    | _ => none

/-- A connection from an Initiator, as the Responder or the relay accepts
it: the Initiator's exchange for the group `(37, 5)` with public value `8`,
then one ENCRYPTED frame. -/
def sampleInitiatorConn : Conn :=
  ⟨1, [Frame.exchange [37, 5, 8], Frame.encrypted [1, 2, 3] (List.replicate 16 0)], 5⟩

/-- A connection to a Responder, as the relay dials it: the Responder's
exchange, then one ENCRYPTED frame. -/
def sampleResponderConn : Conn :=
  ⟨2, [Frame.exchange [37, 5, 30], Frame.encrypted [5, 5, 5] (List.replicate 16 1)], 5⟩

/-- A random source and dialer for one connection handled by the relay: two
exponents, two IVs, and a dial that reaches `sampleResponderConn`. -/
def sampleEnv : Env :=
  ⟨[3, 4], [List.replicate 16 7, List.replicate 16 8], [some sampleResponderConn]⟩

/-- A connection whose peer sends its exchange and then closes. -/
def sampleBrokenConn : Conn := ⟨3, [Frame.exchange [37, 5, 8]], 5⟩

/-- The key both ends derive in the sample honest exchange (exponents `3`
and `4`, shared secret `10`). -/
def sampleHonestKey : Bytes := (samplePrimitives.hash (natBytes 10)).take 16

/-- The Initiator's end of the sample honest exchange: the frames the
Responder writes. -/
def sampleAliceConn : Conn :=
  ⟨4, [Frame.exchange [37, 5, 33],
       Frame.encrypted
         (samplePrimitives.encrypt sampleHonestKey (List.replicate 16 6)
           (bytesOf SECRET_MESSAGE))
         (List.replicate 16 6)], 5⟩

/-- The Responder's end of the sample honest exchange: the frames the
Initiator writes. -/
def sampleBobConn : Conn :=
  ⟨5, [Frame.exchange [37, 5, 14],
       Frame.encrypted
         (samplePrimitives.encrypt sampleHonestKey (List.replicate 16 9)
           (bytesOf SECRET_MESSAGE))
         (List.replicate 16 9)], 5⟩

/-- The Initiator's random source and dialer in the sample honest exchange. -/
def sampleAliceEnv : Env := ⟨[3], [List.replicate 16 9], [some sampleAliceConn]⟩

/-- The Responder's random source in the sample exchanges. -/
def sampleBobEnv : Env := ⟨[4], [List.replicate 16 6], []⟩

/-- The Initiator's end of the sample relayed exchange: the frames the relay
writes to it. -/
def relayedAliceConn : Conn :=
  ⟨4, [Frame.exchange [37, 5, 37],
       Frame.encrypted
         (samplePrimitives.encrypt (degenerateKey samplePrimitives) (List.replicate 16 8)
           (bytesOf SECRET_MESSAGE))
         (List.replicate 16 8)], 5⟩

/-- The relay's accepted connection in the sample relayed exchange: the
frames the Initiator writes. -/
def relayedEveConn : Conn :=
  ⟨1, [Frame.exchange [37, 5, 14],
       Frame.encrypted
         (samplePrimitives.encrypt (degenerateKey samplePrimitives) (List.replicate 16 9)
           (bytesOf SECRET_MESSAGE))
         (List.replicate 16 9)], 5⟩

/-- The relay's dialed connection in the sample relayed exchange: the frames
the Responder writes. -/
def relayedEveClientConn : Conn :=
  ⟨2, [Frame.exchange [37, 5, 33],
       Frame.encrypted
         (samplePrimitives.encrypt (degenerateKey samplePrimitives) (List.replicate 16 6)
           (bytesOf SECRET_MESSAGE))
         (List.replicate 16 6)], 5⟩

/-- The Responder's end of the sample relayed exchange: the frames the relay
writes to it. -/
def relayedBobConn : Conn :=
  ⟨5, [Frame.exchange [37, 5, 37],
       Frame.encrypted
         (samplePrimitives.encrypt (degenerateKey samplePrimitives) (List.replicate 16 7)
           (bytesOf SECRET_MESSAGE))
         (List.replicate 16 7)], 5⟩

/-- The Initiator's random source and dialer in the sample relayed exchange. -/
def relayedAliceEnv : Env := ⟨[3], [List.replicate 16 9], [some relayedAliceConn]⟩

/-- The relay's random source and dialer in the sample relayed exchange. -/
def relayedEveEnv : Env :=
  ⟨[3, 4], [List.replicate 16 7, List.replicate 16 8], [some relayedEveClientConn]⟩

/-- PKCS#7 padding of a plaintext to whole blocks of 16 bytes. -/
def pkcs7Pad (m : Bytes) : Bytes :=
  m ++ List.replicate (16 - m.length % 16) (16 - m.length % 16)

/-- Removal of PKCS#7 padding: `none` when the input is empty, is not a whole
number of 16-byte blocks, or does not end in well-formed padding. -/
def pkcs7Unpad (p : Bytes) : Option Bytes :=
  match p.getLast? with
  | none => none
  | some n =>
    if p.length % 16 = 0 ∧ 1 ≤ n ∧ n ≤ 16 ∧ p.drop (p.length - n) = List.replicate n n then
      some (p.take (p.length - n))
    else none

/-- A second instance of the library primitives, with the shape of a block
cipher: `encrypt` pads the plaintext to whole 16-byte blocks and XORs every
byte with a byte derived from key and IV; `decrypt` rejects an IV that is not
16 bytes long and a ciphertext that is empty, is not a whole number of
16-byte blocks, or does not decrypt to well-formed padding.  Hash and codec
are those of `samplePrimitives`. -/
def blockPrimitives : Primitives :=
  { samplePrimitives with
    encrypt := fun key iv pt => (pkcs7Pad pt).map (fun x => x ^^^ ((key.sum + iv.sum) % 256))
    decrypt := fun key iv ct =>
      if iv.length = 16 then pkcs7Unpad (ct.map (fun x => x ^^^ ((key.sum + iv.sum) % 256)))
      else none }

/-- A connection from an Initiator that was handed the modulus as peer public
value, as the relay accepts it: the Initiator's exchange for the group
`(37, 5)`, then one ENCRYPTED frame, the encryption under `blockPrimitives`
of the plaintext `[1, 2, 3]` with the degenerate key and the IV `0...0`. -/
def blockInitiatorConn : Conn :=
  ⟨1, [Frame.exchange [37, 5, 8],
       Frame.encrypted ([17, 18, 19] ++ List.replicate 13 29) (List.replicate 16 0)], 5⟩

/-- A connection to a Responder that was handed the modulus as peer public
value, as the relay dials it: the Responder's exchange, then one ENCRYPTED
frame, the encryption under `blockPrimitives` of the echo `[1, 2, 3]` with the
degenerate key and the IV `1...1`. -/
def blockResponderConn : Conn :=
  ⟨2, [Frame.exchange [37, 5, 30],
       Frame.encrypted ([33, 34, 35] ++ List.replicate 13 45) (List.replicate 16 1)], 5⟩

/-- A random source and dialer for one connection handled by the relay: two
exponents, the IVs `7...7` and `8...8`, and a dial that reaches
`blockResponderConn`. -/
def blockEnv : Env :=
  ⟨[3, 4], [List.replicate 16 7, List.replicate 16 8], [some blockResponderConn]⟩

end set_five

/-! ## The MT19937 stream cipher (`set3/24.go`) -/

namespace set_three

/-- The conversion `byte(x & 0xFF)` keeps the low 8 bits of `x`. -/
theorem low_byte (x : Nat) : (x &&& 0xFF) % 256 = x % 256 := by
  have h := Nat.and_pow_two_sub_one_eq_mod x 8
  norm_num at h
  rw [h]
  exact Nat.mod_mod _ _

/-- The loop overwrites the `src.length` bytes of `dst` from index
`pre.length` on with the keystream applied to `src`, and nothing else. -/
theorem cryptLoop_snd {σ : Type} (Extract : σ → Nat × σ) (src : Bytes) :
    ∀ (mt : σ) (pre mid post : Bytes), mid.length = src.length →
      (cryptLoop Extract mt pre.length (pre ++ mid ++ post) src).2
        = pre ++ keystreamXor Extract mt src ++ post := by
  induction src with
  | nil =>
    intro mt pre mid post h
    have : mid = [] := List.length_eq_zero.mp h
    simp [cryptLoop, keystreamXor, this]
  | cons b src ih =>
    intro mt pre mid post h
    cases mid with
    | nil => simp at h
    | cons m mid =>
      simp only [List.length_cons, Nat.add_right_cancel_iff] at h
      have hset : (pre ++ (m :: mid) ++ post).set pre.length (b ^^^ ((Extract mt).1 % 256))
          = (pre ++ [b ^^^ ((Extract mt).1 % 256)]) ++ mid ++ post := by
        simp [List.set_append_right]
      have hlen : pre.length + 1 = (pre ++ [b ^^^ ((Extract mt).1 % 256)]).length := by simp
      simp only [cryptLoop, low_byte]
      rw [hset, hlen, ih _ _ mid post h]
      simp [keystreamXor]

theorem keystreamXor_length {σ : Type} (Extract : σ → Nat × σ) (src : Bytes) :
    ∀ mt : σ, (keystreamXor Extract mt src).length = src.length := by
  induction src with
  | nil => intro mt; rfl
  | cons b src ih => intro mt; simp [keystreamXor, ih]

/-- Applying the keystream of the same generator state twice gives back the
input. -/
theorem keystreamXor_involutive {σ : Type} (Extract : σ → Nat × σ) (src : Bytes) :
    ∀ mt : σ, keystreamXor Extract mt (keystreamXor Extract mt src) = src := by
  induction src with
  | nil => intro mt; rfl
  | cons b src ih => intro mt; simp [keystreamXor, ih, Nat.xor_cancel_right]

theorem keystreamXor_get {σ : Type} (Extract : σ → Nat × σ) (src : Bytes) :
    ∀ (mt : σ) (i : Nat) (hi : i < src.length),
      (keystreamXor Extract mt src)[i]? = some (src[i] ^^^ (extractNth Extract mt i % 256)) := by
  induction src with
  | nil => intro mt i hi; simp at hi
  | cons b src ih =>
    intro mt i hi
    cases i with
    | zero => simp [keystreamXor, extractNth]
    | succ i =>
      simp only [List.length_cons, Nat.add_lt_add_iff_right] at hi
      simp [keystreamXor, extractNth, ih _ i hi]

/-- With a large enough `dst`, `CryptBlocks` returns, and `dst` then holds
the keystream applied to `src` followed by its old bytes beyond `src`. -/
theorem CryptBlocks_eq {σ : Type} (Extract : σ → Nat × σ) (mt : σ) (dst src : Bytes)
    (h : src.length ≤ dst.length) :
    ∃ mt1, CryptBlocks Extract mt dst src
      = some (mt1, keystreamXor Extract mt src ++ dst.drop src.length) := by
  have h1 := cryptLoop_snd Extract src mt [] (dst.take src.length) (dst.drop src.length)
    (by simp [h])
  simp only [List.length_nil, List.nil_append, List.take_append_drop] at h1
  refine ⟨(cryptLoop Extract mt 0 dst src).1, ?_⟩
  unfold CryptBlocks
  rw [if_neg (by omega), ← h1]

/-- C9: for every generator `Extract`, state `s`, input `src` and buffers
`dst`, `dst2` at least as long as `src`, `CryptBlocks` returns; afterwards
`dst` has its length unchanged and `dst[i] = src[i] XOR (low 8 bits of the
i-th successive Extract output)` for every `i < len(src)`; and `CryptBlocks`
run on those `len(src)` output bytes with a generator in the same state `s`
returns, leaving `src` in the first `len(src)` bytes of its buffer. -/
theorem CryptBlocks_encrypts_and_decrypts {σ : Type} (Extract : σ → Nat × σ) (s : σ)
    (src dst dst2 : Bytes) (h : src.length ≤ dst.length) (h2 : src.length ≤ dst2.length) :
    ∃ s1 out, CryptBlocks Extract s dst src = some (s1, out) ∧
      out.length = dst.length ∧
      (∀ (i : Nat) (hi : i < src.length),
        out[i]? = some (src[i] ^^^ (extractNth Extract s i % 256))) ∧
      ∃ s2 back, CryptBlocks Extract s dst2 (out.take src.length) = some (s2, back) ∧
        back.take src.length = src := by
  obtain ⟨s1, h1⟩ := CryptBlocks_eq Extract s dst src h
  have hlen := keystreamXor_length Extract src s
  have htake : (keystreamXor Extract s src ++ dst.drop src.length).take src.length
      = keystreamXor Extract s src := by
    rw [← hlen]; exact List.take_left' rfl
  obtain ⟨s2, hb⟩ := CryptBlocks_eq Extract s dst2 (keystreamXor Extract s src)
    (by rw [hlen]; exact h2)
  rw [keystreamXor_involutive, hlen] at hb
  refine ⟨s1, _, h1, ?_, ?_, s2, src ++ dst2.drop src.length, ?_, List.take_left' rfl⟩
  · simp [hlen]; omega
  · intro i hi
    rw [List.getElem?_append_left (by rw [hlen]; exact hi)]
    exact keystreamXor_get Extract src s i hi
  · rw [htake]; exact hb

/-- C9 at a concrete input: a linear congruential generator in state `7`,
three input bytes and buffers of three bytes. -/
theorem CryptBlocks_encrypts_and_decrypts_witness :
    [65, 66, 67].length ≤ [0, 0, 0].length ∧ [65, 66, 67].length ≤ [9, 9, 9].length ∧
    ∃ s1 out,
      CryptBlocks (fun n : Nat => (n * 1103515245 + 12345, n + 1)) 7 [0, 0, 0] [65, 66, 67]
        = some (s1, out) ∧
      out.length = [0, 0, 0].length ∧
      (∀ (i : Nat) (hi : i < [65, 66, 67].length),
        out[i]? = some ([65, 66, 67][i] ^^^
          (extractNth (fun n : Nat => (n * 1103515245 + 12345, n + 1)) 7 i % 256))) ∧
      ∃ s2 back,
        CryptBlocks (fun n : Nat => (n * 1103515245 + 12345, n + 1)) 7 [9, 9, 9]
          (out.take [65, 66, 67].length) = some (s2, back) ∧
        back.take [65, 66, 67].length = [65, 66, 67] :=
  ⟨by decide, by decide,
    CryptBlocks_encrypts_and_decrypts (fun n : Nat => (n * 1103515245 + 12345, n + 1)) 7
      [65, 66, 67] [0, 0, 0] [9, 9, 9] (by decide) (by decide)⟩

end set_three

/-! ## Key agreement (`set5/34.go`) -/

namespace set_five

theorem NewDHSession_eq (p g d : Nat) (hp : 2 < p) :
    NewDHSession p g d
      = some { Group := ⟨p, g⟩, PublicKey := g ^ d % p, privateKey := d, sessionKey := none } := by
  unfold NewDHSession
  rw [if_neg (by omega)]

/-- Modular exponentiation commutes: `(G^a mod P)^b mod P = (G^b mod P)^a mod P`. -/
theorem pow_mod_comm (P G a b : Nat) : (G ^ a % P) ^ b % P = (G ^ b % P) ^ a % P := by
  rw [← Nat.pow_mod, ← Nat.pow_mod, ← pow_mul, ← pow_mul, Nat.mul_comm]

/-- The modulus raised to a positive exponent is `0` modulo itself. -/
theorem modulus_pow_mod (P d : Nat) (hd : 1 ≤ d) : P ^ d % P = 0 := by
  obtain ⟨k, rfl⟩ : ∃ k, d = k + 1 := ⟨d - 1, by omega⟩
  rw [pow_succ]
  exact Nat.mul_mod_left _ _

/-- C1: for every group `(P, G)` with `P > 2` and all private exponents
`a`, `b` (in particular those in `[1, P-1)`), the Initiator's session
`NewDHSession(P, G)` and the Responder's session `NewDHSession(e.Group.P,
e.Group.G)` are created, have public values `A = G^a mod P` and
`B = G^b mod P`, compute the same shared secret `B^a mod P = A^b mod P`, and
`GenerateSessionKeys` on the peer's public value leaves the same key, the
first 16 bytes of the hash of that secret, in both. -/
theorem initiator_responder_keys_agree (pr : Primitives) (P G a b : Nat) (hP : 2 < P) :
    ∃ alice bob : DHSession,
      NewDHSession P G a = some alice ∧
      NewDHSession (DHExchange.mk alice.Group alice.PublicKey).Group.P
        (DHExchange.mk alice.Group alice.PublicKey).Group.G b = some bob ∧
      alice.PublicKey = G ^ a % P ∧ bob.PublicKey = G ^ b % P ∧
      alice.sharedSecret bob.PublicKey = bob.sharedSecret alice.PublicKey ∧
      (G ^ a % P) ^ b % P = (G ^ b % P) ^ a % P ∧
      (alice.GenerateSessionKeys pr bob.PublicKey).sessionKey
        = (bob.GenerateSessionKeys pr alice.PublicKey).sessionKey ∧
      (bob.GenerateSessionKeys pr alice.PublicKey).sessionKey
        = some ((pr.hash (natBytes ((G ^ a % P) ^ b % P))).take 16) := by
  refine ⟨_, _, NewDHSession_eq P G a hP, NewDHSession_eq P G b hP, rfl, rfl, ?_, ?_, ?_, ?_⟩
  · simp only [DHSession.sharedSecret]
    exact pow_mod_comm P G b a
  · exact pow_mod_comm P G a b
  · simp only [DHSession.GenerateSessionKeys, DHSession.sharedSecret]
    rw [pow_mod_comm P G b a]
  · simp only [DHSession.GenerateSessionKeys, DHSession.sharedSecret]

/-- C1 at the Client's group `P = 37`, `G = 5`, with exponents `3` and `4`. -/
theorem initiator_responder_keys_agree_witness :
    2 < 37 ∧
    ∃ alice bob : DHSession,
      NewDHSession 37 5 3 = some alice ∧
      NewDHSession (DHExchange.mk alice.Group alice.PublicKey).Group.P
        (DHExchange.mk alice.Group alice.PublicKey).Group.G 4 = some bob ∧
      alice.PublicKey = 5 ^ 3 % 37 ∧ bob.PublicKey = 5 ^ 4 % 37 ∧
      alice.sharedSecret bob.PublicKey = bob.sharedSecret alice.PublicKey ∧
      (5 ^ 3 % 37) ^ 4 % 37 = (5 ^ 4 % 37) ^ 3 % 37 ∧
      (alice.GenerateSessionKeys samplePrimitives bob.PublicKey).sessionKey
        = (bob.GenerateSessionKeys samplePrimitives alice.PublicKey).sessionKey ∧
      (bob.GenerateSessionKeys samplePrimitives alice.PublicKey).sessionKey
        = some ((samplePrimitives.hash (natBytes ((5 ^ 3 % 37) ^ 4 % 37))).take 16) :=
  ⟨by decide, initiator_responder_keys_agree samplePrimitives 37 5 3 4 (by decide)⟩

/-! ### What one call on a channel leaves behind -/

@[simp]
theorem afterWrite_Name (c : DHClient) : c.afterWrite.Name = c.Name := rfl

@[simp]
theorem afterWrite_session (c : DHClient) : c.afterWrite.session = c.session := rfl

@[simp]
theorem afterWrite_key (c : DHClient) : c.afterWrite.key = c.key := rfl

@[simp]
theorem afterWrite_id (c : DHClient) : c.afterWrite.conn.id = c.conn.id := rfl

@[simp]
theorem afterWrite_incoming (c : DHClient) : c.afterWrite.conn.incoming = c.conn.incoming := rfl

@[simp]
theorem afterWrite_writable (c : DHClient) :
    c.afterWrite.conn.writable = c.conn.writable - 1 := rfl

@[simp]
theorem afterSealed_Name (c : DHClient) : c.afterSealed.Name = c.Name := rfl

@[simp]
theorem afterSealed_session (c : DHClient) : c.afterSealed.session = c.session := rfl

@[simp]
theorem afterSealed_key (c : DHClient) : c.afterSealed.key = c.key := rfl

@[simp]
theorem afterSealed_id (c : DHClient) : c.afterSealed.conn.id = c.conn.id := rfl

@[simp]
theorem afterSealed_incoming (c : DHClient) :
    c.afterSealed.conn.incoming = c.conn.incoming := rfl

@[simp]
theorem afterSealed_writable (c : DHClient) :
    c.afterSealed.conn.writable = c.conn.writable - (if c.key.isSome then 1 else 0) := rfl

@[simp]
theorem afterRead_Name (c : DHClient) : c.afterRead.Name = c.Name := rfl

@[simp]
theorem afterRead_session (c : DHClient) : c.afterRead.session = c.session := rfl

@[simp]
theorem afterRead_key (c : DHClient) : c.afterRead.key = c.key := rfl

@[simp]
theorem afterRead_id (c : DHClient) : c.afterRead.conn.id = c.conn.id := rfl

@[simp]
theorem afterRead_incoming (c : DHClient) :
    c.afterRead.conn.incoming = c.conn.incoming.tail := rfl

@[simp]
theorem afterRead_writable (c : DHClient) : c.afterRead.conn.writable = c.conn.writable := rfl

@[simp]
theorem key_mk (name : String) (conn : Conn) (session : Option DHSession) :
    DHClient.key ⟨name, conn, session⟩ = session.bind (fun s => s.sessionKey) := rfl

@[simp]
theorem Send_event (c : DHClient) (b : Bytes) (env : Env) :
    (c.Send b env).event = Event.send c.Name c.conn.id b (decide (0 < c.conn.writable)) := rfl

@[simp]
theorem Send_env (c : DHClient) (b : Bytes) (env : Env) : (c.Send b env).env = env := rfl

@[simp]
theorem Send_client (c : DHClient) (b : Bytes) (env : Env) :
    (c.Send b env).client = c.afterWrite := rfl

@[simp]
theorem ReadMessage_event (pr : Primitives) (c : DHClient) (t : MessageType)
    (env : Env) :
    (c.ReadMessage pr t env).event
      = Event.readMessage c.Name c.conn.id t c.conn.incoming.head?
          (c.decoded pr t).isSome := rfl

@[simp]
theorem ReadMessage_result (pr : Primitives) (c : DHClient) (t : MessageType)
    (env : Env) : (c.ReadMessage pr t env).result = c.decoded pr t := rfl

@[simp]
theorem ReadMessage_env (pr : Primitives) (c : DHClient) (t : MessageType)
    (env : Env) : (c.ReadMessage pr t env).env = env := rfl

@[simp]
theorem ReadMessage_client (pr : Primitives) (c : DHClient) (t : MessageType)
    (env : Env) : (c.ReadMessage pr t env).client = c.afterRead := rfl

@[simp]
theorem ReadEncrypted_event (pr : Primitives) (c : DHClient) (env : Env) :
    (c.ReadEncrypted pr env).event
      = Event.readEncrypted c.Name c.conn.id c.conn.incoming.head? (c.opened pr) := rfl

@[simp]
theorem ReadEncrypted_result (pr : Primitives) (c : DHClient) (env : Env) :
    (c.ReadEncrypted pr env).result = c.opened pr := rfl

@[simp]
theorem ReadEncrypted_env (pr : Primitives) (c : DHClient) (env : Env) :
    (c.ReadEncrypted pr env).env = env := rfl

@[simp]
theorem ReadEncrypted_client (pr : Primitives) (c : DHClient) (env : Env) :
    (c.ReadEncrypted pr env).client = c.afterRead := rfl

@[simp]
theorem SendEncrypted_event (pr : Primitives) (c : DHClient) (m : Bytes) (env : Env) :
    (c.SendEncrypted pr m env).event
      = Event.sendEncrypted c.Name c.conn.id m (c.sealed pr m env.nextIV.1) := rfl

@[simp]
theorem SendEncrypted_result (pr : Primitives) (c : DHClient) (m : Bytes) (env : Env) :
    (c.SendEncrypted pr m env).result = (c.sealed pr m env.nextIV.1).isSome := rfl

@[simp]
theorem SendEncrypted_env (pr : Primitives) (c : DHClient) (m : Bytes) (env : Env) :
    (c.SendEncrypted pr m env).env = if c.key.isSome then env.nextIV.2 else env := rfl

@[simp]
theorem SendEncrypted_client (pr : Primitives) (c : DHClient) (m : Bytes) (env : Env) :
    (c.SendEncrypted pr m env).client = c.afterSealed := rfl

/-! ### The degenerate key -/

/-- A session whose exponent is at least `1` derives, against its own
modulus as the peer public value, the shared secret `0` and the degenerate
key. -/
theorem degenerate_of_modulus (pr : Primitives) (s : DHSession) (hd : 1 ≤ s.privateKey) :
    s.sharedSecret s.Group.P = 0 ∧
      (s.GenerateSessionKeys pr s.Group.P).sessionKey = some (degenerateKey pr) := by
  have h0 : s.sharedSecret s.Group.P = 0 := modulus_pow_mod _ _ hd
  exact ⟨h0, by simp only [DHSession.GenerateSessionKeys, h0, degenerateKey]⟩

theorem NewDHSession_degenerate (pr : Primitives) (p g d : Nat) (s : DHSession) (hd : 1 ≤ d)
    (hs : NewDHSession p g d = some s) :
    (s.GenerateSessionKeys pr p).sessionKey = some (degenerateKey pr) ∧
    (DHSession.GenerateSessionKeys pr { s with PublicKey := p } p).sessionKey
      = some (degenerateKey pr) := by
  unfold NewDHSession at hs
  split at hs
  · cases hs
  · cases hs
    exact ⟨(degenerate_of_modulus pr _ hd).2, (degenerate_of_modulus pr _ hd).2⟩

set_option maxHeartbeats 1000000 in
/-- Every key the relay derives while handling a connection is the
degenerate key, when the exponents it draws are at least `1`. -/
theorem relay_keys_degenerate (pr : Primitives) (conn : Conn) (env : Env) (d1 d2 : Nat)
    (more : List Nat) (hexps : env.exps = d1 :: d2 :: more) (h1 : 1 ≤ d1) (h2 : 1 ≤ d2)
    (name : String) (peer : Nat) (key : Option Bytes)
    (hev : Event.generateSessionKeys name peer key ∈
      (StartMITMServer.iteration pr conn env).events) :
    key = some (degenerateKey pr) := by
  have e1 : env.nextExp.1 = d1 := by simp [Env.nextExp, hexps]
  have e2 : env.nextExp.2.nextDial.2.nextExp.1 = d2 := by
    simp [Env.nextExp, Env.nextDial, hexps]
  revert hev
  unfold StartMITMServer.iteration
  simp only []
  repeat' split
  all_goals simp only [ReadMessage_env, Send_env, e1, e2] at *
  all_goals
    simp only [List.mem_cons, List.mem_append, List.mem_singleton, List.not_mem_nil,
      reduceCtorEq, false_or, or_false, Event.generateSessionKeys.injEq, Send_event,
      ReadMessage_event, ReadEncrypted_event, SendEncrypted_event]
  all_goals intro hmem
  all_goals
    first
    | (rcases hmem with ⟨_, _, rfl⟩ | ⟨_, _, rfl⟩
       · exact (NewDHSession_degenerate pr _ _ _ _ h1 (by assumption)).1
       · exact (NewDHSession_degenerate pr _ _ _ _ h2 (by assumption)).2)
    | (obtain ⟨_, _, rfl⟩ := hmem
       exact (NewDHSession_degenerate pr _ _ _ _ h1 (by assumption)).1)
    | exact hmem.elim

/-- C2: for every group `(P, G)` with `P > 2` and all private exponents
`d1`, `d2` (the relay's two sessions), `a` (Initiator) and `b` (Responder)
that are at least `1`, every one of the four sessions, keyed with the modulus
`P` as the peer public value, computes the shared secret `P^d mod P = 0` and
derives the same key, the first 16 bytes of the hash of the bytes of `0`,
whatever the exponent and whatever public value the Initiator really sent;
and every key `StartMITMServer` derives while handling a connection is that
key. -/
theorem modulus_as_peer_fixes_key (pr : Primitives) (P G d1 d2 a b : Nat) (hP : 2 < P)
    (h1 : 1 ≤ d1) (h2 : 1 ≤ d2) (ha : 1 ≤ a) (hb : 1 ≤ b) :
    ∃ eve eveClient alice bob : DHSession,
      NewDHSession P G d1 = some eve ∧ NewDHSession P G d2 = some eveClient ∧
      NewDHSession P G a = some alice ∧ NewDHSession P G b = some bob ∧
      eve.sharedSecret P = 0 ∧
      DHSession.sharedSecret { eveClient with PublicKey := P } P = 0 ∧
      alice.sharedSecret P = 0 ∧ bob.sharedSecret P = 0 ∧
      (eve.GenerateSessionKeys pr P).sessionKey = some (degenerateKey pr) ∧
      (DHSession.GenerateSessionKeys pr { eveClient with PublicKey := P } P).sessionKey
        = some (degenerateKey pr) ∧
      (alice.GenerateSessionKeys pr P).sessionKey = some (degenerateKey pr) ∧
      (bob.GenerateSessionKeys pr P).sessionKey = some (degenerateKey pr) ∧
      ∀ (conn : Conn) (env : Env) (more : List Nat) (name : String) (peer : Nat)
        (key : Option Bytes), env.exps = d1 :: d2 :: more →
        Event.generateSessionKeys name peer key ∈
          (StartMITMServer.iteration pr conn env).events →
        key = some (degenerateKey pr) := by
  refine ⟨_, _, _, _, NewDHSession_eq P G d1 hP, NewDHSession_eq P G d2 hP,
    NewDHSession_eq P G a hP, NewDHSession_eq P G b hP,
    modulus_pow_mod P d1 h1, modulus_pow_mod P d2 h2, modulus_pow_mod P a ha,
    modulus_pow_mod P b hb,
    (NewDHSession_degenerate pr P G d1 _ h1 (NewDHSession_eq P G d1 hP)).1,
    (NewDHSession_degenerate pr P G d2 _ h2 (NewDHSession_eq P G d2 hP)).2,
    (NewDHSession_degenerate pr P G a _ ha (NewDHSession_eq P G a hP)).1,
    (NewDHSession_degenerate pr P G b _ hb (NewDHSession_eq P G b hP)).1, ?_⟩
  intro conn env more name peer key hexps hev
  exact relay_keys_degenerate pr conn env d1 d2 more hexps h1 h2 name peer key hev

/-- C2 at the group `P = 37`, `G = 5`, with exponents `3`, `4`, `5`, `6`. -/
theorem modulus_as_peer_fixes_key_witness :
    2 < 37 ∧ 1 ≤ 3 ∧ 1 ≤ 4 ∧ 1 ≤ 5 ∧ 1 ≤ 6 ∧
    ∃ eve eveClient alice bob : DHSession,
      NewDHSession 37 5 3 = some eve ∧ NewDHSession 37 5 4 = some eveClient ∧
      NewDHSession 37 5 5 = some alice ∧ NewDHSession 37 5 6 = some bob ∧
      eve.sharedSecret 37 = 0 ∧
      DHSession.sharedSecret { eveClient with PublicKey := 37 } 37 = 0 ∧
      alice.sharedSecret 37 = 0 ∧ bob.sharedSecret 37 = 0 ∧
      (eve.GenerateSessionKeys samplePrimitives 37).sessionKey
        = some (degenerateKey samplePrimitives) ∧
      (DHSession.GenerateSessionKeys samplePrimitives { eveClient with PublicKey := 37 }
        37).sessionKey = some (degenerateKey samplePrimitives) ∧
      (alice.GenerateSessionKeys samplePrimitives 37).sessionKey
        = some (degenerateKey samplePrimitives) ∧
      (bob.GenerateSessionKeys samplePrimitives 37).sessionKey
        = some (degenerateKey samplePrimitives) ∧
      ∀ (conn : Conn) (env : Env) (more : List Nat) (name : String) (peer : Nat)
        (key : Option Bytes), env.exps = 3 :: 4 :: more →
        Event.generateSessionKeys name peer key ∈
          (StartMITMServer.iteration samplePrimitives conn env).events →
        key = some (degenerateKey samplePrimitives) :=
  ⟨by decide, by decide, by decide, by decide, by decide,
    modulus_as_peer_fixes_key samplePrimitives 37 5 3 4 5 6 (by decide) (by decide)
      (by decide) (by decide) (by decide)⟩

/-! ### Order of calls -/

/-- The monitor rejects an encrypted read on a channel that was never keyed. -/
theorem keyedBeforeUse_rejects_unkeyed_read :
    keyedBeforeUse [] [Event.readEncrypted "Bob" 1 none none] = false := rfl

/-- The monitor rejects a read of an ENCRYPTED frame before the key. -/
theorem keyedBeforeUse_rejects_early_frame :
    keyedBeforeUse []
      [Event.readMessage "Bob" 1 MessageType.DHE_MSG_ENCRYPTED none false] = false := rfl

set_option maxHeartbeats 1000000 in
/-- C6: in every execution of the handling of a connection by `StartServer`,
of the handling of a connection by `StartMITMServer`, and of `Client`, no
`SendEncrypted` or `ReadEncrypted` is performed on a channel before
`GenerateSessionKeys` was called on that channel's session, and every frame
read on a channel before that is read by `ReadMessage(DHE_MSG_EXCHANGE)`. -/
theorem no_encrypted_traffic_before_key (pr : Primitives) (conn : Conn) (env : Env) :
    keyedBeforeUse [] (StartServer.iteration pr conn env).events = true ∧
    keyedBeforeUse [] (StartMITMServer.iteration pr conn env).events = true ∧
    keyedBeforeUse [] (Client pr env).events = true := by
  refine ⟨?_, ?_, ?_⟩
  · unfold StartServer.iteration
    simp only []
    repeat' split
    all_goals simp [keyedBeforeUse]
  · unfold StartMITMServer.iteration
    simp only []
    repeat' split
    all_goals simp [keyedBeforeUse]
  · unfold Client Client.body runDeferred
    simp only []
    repeat' split
    all_goals simp [keyedBeforeUse]

/-! ### The tampered exchange -/

theorem decoded_exchange (pr : Primitives) (name : String) (conn : Conn)
    (session : Option DHSession) (payload : Bytes) (e : DHExchange)
    (hread : conn.incoming.head? = some (Frame.exchange payload))
    (hdec : pr.gobDecode payload = some e) :
    DHClient.decoded pr ⟨name, conn, session⟩ MessageType.DHE_MSG_EXCHANGE
      = some (Message.DHExchange e) := by
  simp [DHClient.decoded, hread, hdec]

set_option maxHeartbeats 1000000 in
/-- C3: when the relay receives the EXCHANGE message `{Group, A}` from the
Initiator, every EXCHANGE message it sends while handling that connection
carries the encoding of `{Group, Group.P}`: the received group unchanged and
the modulus as public value.  It is sent on the Initiator's connection as
`Eve` and on the dialed connection to the Responder as `EveClient`; when the
handling ends without error, both were sent and they are the same bytes. -/
theorem relay_sends_modulus_exchange (pr : Primitives) (conn : Conn) (env : Env)
    (payload : Bytes) (e : DHExchange)
    (hread : conn.incoming.head? = some (Frame.exchange payload))
    (hdec : pr.gobDecode payload = some e) :
    (∀ (name : String) (c : Nat) (b : Bytes) (ok : Bool),
      Event.send name c b ok ∈ (StartMITMServer.iteration pr conn env).events →
        encode pr ⟨e.Group, e.Group.P⟩ = some b ∧
        ((name = "Eve" ∧ c = conn.id) ∨
          (name = "EveClient" ∧ ∃ cc, env.nextExp.2.nextDial.1 = some cc ∧ c = cc.id))) ∧
    ((StartMITMServer.iteration pr conn env).outcome = Outcome.ok →
      ∃ (b : Bytes) (cc : Conn) (ok1 ok2 : Bool),
        encode pr ⟨e.Group, e.Group.P⟩ = some b ∧ env.nextExp.2.nextDial.1 = some cc ∧
        Event.send "Eve" conn.id b ok1 ∈ (StartMITMServer.iteration pr conn env).events ∧
        Event.send "EveClient" cc.id b ok2 ∈
          (StartMITMServer.iteration pr conn env).events) := by
  have hd := decoded_exchange pr "Eve" conn none payload e hread hdec
  unfold StartMITMServer.iteration
  simp only [ReadMessage_result, hd]
  repeat' split
  all_goals simp_all
  all_goals aesop

/-- C3 on a sample connection: the Initiator's exchange `{(37, 5), 8}`. -/
theorem relay_sends_modulus_exchange_witness :
    sampleInitiatorConn.incoming.head? = some (Frame.exchange [37, 5, 8]) ∧
    samplePrimitives.gobDecode [37, 5, 8] = some ⟨⟨37, 5⟩, 8⟩ ∧
    (∀ (name : String) (c : Nat) (b : Bytes) (ok : Bool),
      Event.send name c b ok ∈
          (StartMITMServer.iteration samplePrimitives sampleInitiatorConn sampleEnv).events →
        encode samplePrimitives ⟨(DHExchange.mk ⟨37, 5⟩ 8).Group,
          (DHExchange.mk ⟨37, 5⟩ 8).Group.P⟩ = some b ∧
        ((name = "Eve" ∧ c = sampleInitiatorConn.id) ∨
          (name = "EveClient" ∧
            ∃ cc, sampleEnv.nextExp.2.nextDial.1 = some cc ∧ c = cc.id))) ∧
    ((StartMITMServer.iteration samplePrimitives sampleInitiatorConn sampleEnv).outcome
        = Outcome.ok →
      ∃ (b : Bytes) (cc : Conn) (ok1 ok2 : Bool),
        encode samplePrimitives ⟨(DHExchange.mk ⟨37, 5⟩ 8).Group,
          (DHExchange.mk ⟨37, 5⟩ 8).Group.P⟩ = some b ∧
        sampleEnv.nextExp.2.nextDial.1 = some cc ∧
        Event.send "Eve" sampleInitiatorConn.id b ok1 ∈
          (StartMITMServer.iteration samplePrimitives sampleInitiatorConn sampleEnv).events ∧
        Event.send "EveClient" cc.id b ok2 ∈
          (StartMITMServer.iteration samplePrimitives sampleInitiatorConn sampleEnv).events) :=
  ⟨by decide, by decide,
    relay_sends_modulus_exchange samplePrimitives sampleInitiatorConn sampleEnv [37, 5, 8]
      ⟨⟨37, 5⟩, 8⟩ (by decide) (by decide)⟩

/-! ### Failures and the accept loop -/

/-- A call `ReadMessage(DHE_MSG_EXCHANGE)` returns an exchange or fails. -/
theorem decoded_exchange_cases (pr : Primitives) (c : DHClient) :
    c.decoded pr MessageType.DHE_MSG_EXCHANGE = none ∨
      ∃ e, c.decoded pr MessageType.DHE_MSG_EXCHANGE = some (Message.DHExchange e) := by
  unfold DHClient.decoded
  cases hh : c.conn.incoming.head? with
  | none => simp
  | some f =>
    cases f with
    | exchange p => cases hp : pr.gobDecode p <;> simp [hp]
    | encrypted ct iv => simp

theorem decoded_exchange_none (pr : Primitives) (c : DHClient)
    (h : ∀ e, c.decoded pr MessageType.DHE_MSG_EXCHANGE = some (Message.DHExchange e) → False) :
    c.decoded pr MessageType.DHE_MSG_EXCHANGE = none := by
  rcases decoded_exchange_cases pr c with h0 | ⟨e, he⟩
  · exact h0
  · exact (h e he).elim

set_option maxHeartbeats 1000000 in
/-- The handling of a connection by `StartServer` ends in a panic exactly
when one of its steps fails, and otherwise runs to its end. -/
theorem StartServer_iteration_failure (pr : Primitives) (conn : Conn) (env : Env) :
    ((StartServer.iteration pr conn env).events.any Event.isFailure = true ↔
      (StartServer.iteration pr conn env).outcome = Outcome.panicked) ∧
    ((StartServer.iteration pr conn env).outcome = Outcome.panicked ∨
      (StartServer.iteration pr conn env).outcome = Outcome.ok) ∧
    (StartServer.iteration pr conn env).deferred = [] ∧
    ∀ c, Event.close c ∉ (StartServer.iteration pr conn env).events := by
  unfold StartServer.iteration
  simp only []
  split
  · repeat' split
    all_goals simp_all [Event.isFailure]
    all_goals
      rename_i h
      intro hn
      rw [hn] at h
      exact absurd h (by simp)
  · rename_i h
    have h0 := decoded_exchange_none pr ⟨"Bob", conn, none⟩ (by simpa using h)
    simp [Event.isFailure, h0]

set_option maxHeartbeats 2000000 in
/-- The handling of a connection by `StartMITMServer` ends in a panic
exactly when one of its steps fails, and otherwise runs to its end; it closes
no connection. -/
theorem StartMITMServer_iteration_failure (pr : Primitives) (conn : Conn) (env : Env) :
    ((StartMITMServer.iteration pr conn env).events.any Event.isFailure = true ↔
      (StartMITMServer.iteration pr conn env).outcome = Outcome.panicked) ∧
    ((StartMITMServer.iteration pr conn env).outcome = Outcome.panicked ∨
      (StartMITMServer.iteration pr conn env).outcome = Outcome.ok) ∧
    ∀ c, Event.close c ∉ (StartMITMServer.iteration pr conn env).events := by
  unfold StartMITMServer.iteration
  simp only []
  split
  · repeat' split
    all_goals simp_all [Event.isFailure, Option.isSome_iff_ne_none]
  · rename_i h
    have h0 := decoded_exchange_none pr ⟨"Eve", conn, none⟩ (by simpa using h)
    simp [Event.isFailure, h0]

/-- Once the accept loop of `StartServer` has panicked, the connections
that come after are never accepted. -/
theorem StartServer_loop_append_panicked (pr : Primitives) (pre rest : List (Option Conn)) :
    ∀ env : Env, (StartServer.loop pr pre env).outcome = Outcome.panicked →
      StartServer.loop pr (pre ++ rest) env = StartServer.loop pr pre env := by
  induction pre with
  | nil => intro env h; simp [StartServer.loop] at h
  | cons a pre ih =>
    intro env h
    cases a with
    | none =>
      simp only [StartServer.loop, List.cons_append] at h ⊢
      simp only [List.append_eq, ih env h]
    | some conn =>
      simp only [StartServer.loop, List.cons_append] at h ⊢
      split
      · rename_i hok
        simp only [hok] at h
        simp only [List.append_eq, ih _ h]
      · rfl

/-- Once the accept loop of `StartMITMServer` has panicked, the connections
that come after are never accepted. -/
theorem StartMITMServer_loop_append_panicked (pr : Primitives)
    (pre rest : List (Option Conn)) :
    ∀ (env : Env) (deferred : List Nat),
      (StartMITMServer.loop pr pre env deferred).outcome = Outcome.panicked →
      StartMITMServer.loop pr (pre ++ rest) env deferred
        = StartMITMServer.loop pr pre env deferred := by
  induction pre with
  | nil => intro env deferred h; simp [StartMITMServer.loop] at h
  | cons a pre ih =>
    intro env deferred h
    cases a with
    | none =>
      simp only [StartMITMServer.loop, List.cons_append] at h ⊢
      simp only [List.append_eq, ih env deferred h]
    | some conn =>
      simp only [StartMITMServer.loop, List.cons_append] at h ⊢
      split
      · rename_i hok
        simp only [hok] at h
        simp only [List.append_eq, ih _ _ h]
      · rfl

/-- The accept loop of `StartServer` defers nothing and closes no
connection. -/
theorem StartServer_loop_no_close (pr : Primitives) (accepts : List (Option Conn)) :
    ∀ env : Env, (StartServer.loop pr accepts env).deferred = [] ∧
      ∀ c, Event.close c ∉ (StartServer.loop pr accepts env).events := by
  induction accepts with
  | nil => intro env; simp [StartServer.loop]
  | cons a accepts ih =>
    intro env
    cases a with
    | none =>
      simp only [StartServer.loop]
      exact ⟨(ih env).1, by simpa using (ih env).2⟩
    | some conn =>
      obtain ⟨_, _, hd, hc⟩ := StartServer_iteration_failure pr conn env
      simp only [StartServer.loop]
      split
      · refine ⟨(ih _).1, ?_⟩
        intro c
        simp only [List.mem_cons, List.mem_append, reduceCtorEq, false_or, not_or]
        exact ⟨hc c, (ih _).2 c⟩
      · refine ⟨hd, ?_⟩
        intro c
        simp only [List.mem_cons, reduceCtorEq, false_or]
        exact hc c

/-- While it runs, the accept loop of `StartMITMServer` closes no
connection. -/
theorem StartMITMServer_loop_no_close (pr : Primitives) (accepts : List (Option Conn)) :
    ∀ (env : Env) (deferred : List Nat) (c : Nat),
      Event.close c ∉ (StartMITMServer.loop pr accepts env deferred).events := by
  induction accepts with
  | nil => intro env deferred c; simp [StartMITMServer.loop]
  | cons a accepts ih =>
    intro env deferred c
    cases a with
    | none =>
      simp only [StartMITMServer.loop]
      simpa using ih env deferred c
    | some conn =>
      obtain ⟨_, _, hc⟩ := StartMITMServer_iteration_failure pr conn env
      simp only [StartMITMServer.loop]
      split
      · simp only [List.mem_cons, List.mem_append, reduceCtorEq, false_or, not_or]
        exact ⟨hc c, ih _ _ c⟩
      · simp only [List.mem_cons, reduceCtorEq, false_or]
        exact hc c

theorem runDeferred_outcome (r : Run) (listener : Bool) :
    (runDeferred r listener).outcome = r.outcome := by
  unfold runDeferred
  split <;> simp_all

theorem runDeferred_panicked (r : Run) (listener : Bool) (h : r.outcome = Outcome.panicked) :
    (runDeferred r listener).events
      = r.events ++ r.deferred.map Event.close ++
          (if listener then [Event.closeListener] else []) := by
  unfold runDeferred
  split
  · rename_i hb; rw [h] at hb; cases hb
  · rfl

/-- C7, as stated, fails: a connection whose peer closes after its exchange
makes `ReadEncrypted` fail, `StartServer` and `StartMITMServer` panic, and
the good connection that comes next is never accepted. -/
theorem bad_connection_stops_accept_loop :
    (StartServer samplePrimitives true [some sampleBrokenConn, some sampleInitiatorConn]
      sampleEnv).outcome = Outcome.panicked ∧
    Event.accept sampleInitiatorConn.id ∉
      (StartServer samplePrimitives true [some sampleBrokenConn, some sampleInitiatorConn]
        sampleEnv).events ∧
    (StartMITMServer samplePrimitives true [some sampleBrokenConn, some sampleInitiatorConn]
      sampleEnv).outcome = Outcome.panicked ∧
    Event.accept sampleInitiatorConn.id ∉
      (StartMITMServer samplePrimitives true [some sampleBrokenConn, some sampleInitiatorConn]
        sampleEnv).events := by
  decide

/-- C7, amended.  A failed `Accept` is logged and the accept loop goes on
with the next `Accept`.  A failed step in the handling of an accepted
connection panics; the panic leaves the accept loop of `StartServer` and of
`StartMITMServer`: the deferred calls run and the run ends there, whatever
connections come after. -/
theorem handling_failure_ends_accept_loop (pr : Primitives) (pre rest : List (Option Conn))
    (conn : Conn) (env : Env) :
    ((StartServer.loop pr (none :: rest) env).events
        = Event.acceptError :: (StartServer.loop pr rest env).events ∧
      (StartServer.loop pr (none :: rest) env).outcome
        = (StartServer.loop pr rest env).outcome) ∧
    ((StartMITMServer.loop pr (none :: rest) env []).events
        = Event.acceptError :: (StartMITMServer.loop pr rest env []).events ∧
      (StartMITMServer.loop pr (none :: rest) env []).outcome
        = (StartMITMServer.loop pr rest env []).outcome) ∧
    ((StartServer.iteration pr conn env).events.any Event.isFailure = true →
      (StartServer.iteration pr conn env).outcome = Outcome.panicked ∧
      (StartServer pr true (some conn :: rest) env).outcome = Outcome.panicked ∧
      (StartServer pr true (some conn :: rest) env).events
        = Event.accept conn.id :: (StartServer.iteration pr conn env).events
            ++ [Event.closeListener]) ∧
    ((StartMITMServer.iteration pr conn env).events.any Event.isFailure = true →
      (StartMITMServer.iteration pr conn env).outcome = Outcome.panicked ∧
      (StartMITMServer pr true (some conn :: rest) env).outcome = Outcome.panicked ∧
      (StartMITMServer pr true (some conn :: rest) env).events
        = Event.accept conn.id :: (StartMITMServer.iteration pr conn env).events
            ++ (StartMITMServer.iteration pr conn env).deferred.map Event.close
            ++ [Event.closeListener]) ∧
    ((StartServer pr true pre env).outcome = Outcome.panicked →
      StartServer pr true (pre ++ rest) env = StartServer pr true pre env) ∧
    ((StartMITMServer pr true pre env).outcome = Outcome.panicked →
      StartMITMServer pr true (pre ++ rest) env = StartMITMServer pr true pre env) := by
  refine ⟨⟨rfl, rfl⟩, ⟨rfl, rfl⟩, ?_, ?_, ?_, ?_⟩
  · intro hfail
    have hp := (StartServer_iteration_failure pr conn env).1.1 hfail
    have hd := (StartServer_iteration_failure pr conn env).2.2.1
    have hl : StartServer.loop pr (some conn :: rest) env
        = { StartServer.iteration pr conn env with
            events := Event.accept conn.id :: (StartServer.iteration pr conn env).events } := by
      simp only [StartServer.loop, hp]
    refine ⟨hp, ?_, ?_⟩
    · simp only [StartServer, if_true, runDeferred_outcome, hl, hp]
    · simp only [StartServer, if_true]
      rw [runDeferred_panicked _ _ (by rw [hl]; exact hp), hl]
      simp [hd]
  · intro hfail
    have hp := (StartMITMServer_iteration_failure pr conn env).1.1 hfail
    have hl : StartMITMServer.loop pr (some conn :: rest) env []
        = { StartMITMServer.iteration pr conn env with
            events := Event.accept conn.id :: (StartMITMServer.iteration pr conn env).events
            deferred := (StartMITMServer.iteration pr conn env).deferred ++ [] } := by
      simp only [StartMITMServer.loop, hp]
    refine ⟨hp, ?_, ?_⟩
    · simp only [StartMITMServer, if_true, runDeferred_outcome, hl, hp]
    · simp only [StartMITMServer, if_true]
      rw [runDeferred_panicked _ _ (by rw [hl]; exact hp), hl]
      simp
  · intro h
    simp only [StartServer, if_true, runDeferred_outcome] at h ⊢
    rw [StartServer_loop_append_panicked pr pre rest env h]
  · intro h
    simp only [StartMITMServer, if_true, runDeferred_outcome] at h ⊢
    rw [StartMITMServer_loop_append_panicked pr pre rest env [] h]

/-- C7, amended, on a sample run: the broken connection comes first, a good
one after it. -/
theorem handling_failure_ends_accept_loop_witness :
    (StartServer.iteration samplePrimitives sampleBrokenConn sampleEnv).events.any
      Event.isFailure = true ∧
    (StartMITMServer.iteration samplePrimitives sampleBrokenConn sampleEnv).events.any
      Event.isFailure = true ∧
    (StartServer samplePrimitives true [some sampleBrokenConn] sampleEnv).outcome
      = Outcome.panicked ∧
    (StartMITMServer samplePrimitives true [some sampleBrokenConn] sampleEnv).outcome
      = Outcome.panicked ∧
    (StartServer samplePrimitives true (some sampleBrokenConn :: [some sampleInitiatorConn])
      sampleEnv).events
      = Event.accept sampleBrokenConn.id ::
          (StartServer.iteration samplePrimitives sampleBrokenConn sampleEnv).events
          ++ [Event.closeListener] ∧
    StartMITMServer samplePrimitives true ([some sampleBrokenConn] ++ [some sampleInitiatorConn])
      sampleEnv = StartMITMServer samplePrimitives true [some sampleBrokenConn] sampleEnv :=
  ⟨by decide, by decide, by decide, by decide,
    ((handling_failure_ends_accept_loop samplePrimitives [some sampleBrokenConn]
      [some sampleInitiatorConn] sampleBrokenConn sampleEnv).2.2.1 (by decide)).2.2,
    (handling_failure_ends_accept_loop samplePrimitives [some sampleBrokenConn]
      [some sampleInitiatorConn] sampleBrokenConn sampleEnv).2.2.2.2.2 (by decide)⟩

/-! ### Connections left open -/

/-- C8, as stated, fails: after `StartServer` has handled a connection
without error and waits in `Accept` again, the accepted connection is still
open; after `StartMITMServer` has, the accepted and the dialed connection
are; and after a handling that panics the accepted connection is still
open when `StartServer` has exited. -/
theorem accepted_connection_left_open :
    (StartServer samplePrimitives true [some sampleInitiatorConn] sampleEnv).outcome
      = Outcome.blocked ∧
    openConns [] (StartServer samplePrimitives true [some sampleInitiatorConn]
      sampleEnv).events = [1] ∧
    (StartMITMServer samplePrimitives true [some sampleInitiatorConn] sampleEnv).outcome
      = Outcome.blocked ∧
    openConns [] (StartMITMServer samplePrimitives true [some sampleInitiatorConn]
      sampleEnv).events = [2, 1] ∧
    (StartServer samplePrimitives true [some sampleBrokenConn] sampleEnv).outcome
      = Outcome.panicked ∧
    openConns [] (StartServer samplePrimitives true [some sampleBrokenConn]
      sampleEnv).events = [3] := by
  decide

set_option maxHeartbeats 1000000 in
/-- The role `Client` closes the connection it dialed on every exit path. -/
theorem Client_closes (pr : Primitives) (env : Env) :
    openConns [] (Client pr env).events = [] ∧
    ∀ c, Event.dial c ∈ (Client pr env).events →
      (Client pr env).events.getLast? = some (Event.close c) := by
  unfold Client Client.body runDeferred
  simp only []
  repeat' split
  all_goals simp_all [openConns]

set_option maxHeartbeats 2000000 in
/-- Every `Close` the handling of a connection by `StartMITMServer` defers is
the `Close` of the connection it dialed. -/
theorem StartMITMServer_iteration_deferred (pr : Primitives) (conn : Conn) (env : Env) :
    ∀ c, c ∈ (StartMITMServer.iteration pr conn env).deferred →
      Event.dial c ∈ (StartMITMServer.iteration pr conn env).events := by
  unfold StartMITMServer.iteration
  simp only []
  repeat' split
  all_goals simp_all

/-- Every `Close` deferred when the accept loop of `StartMITMServer` stops was
deferred before the loop or is the `Close` of a connection dialed in it. -/
theorem StartMITMServer_loop_deferred (pr : Primitives) (accepts : List (Option Conn)) :
    ∀ (env : Env) (deferred : List Nat) (c : Nat),
      c ∈ (StartMITMServer.loop pr accepts env deferred).deferred →
      c ∈ deferred ∨ Event.dial c ∈ (StartMITMServer.loop pr accepts env deferred).events := by
  induction accepts with
  | nil => intro env deferred c h; exact Or.inl (by simpa [StartMITMServer.loop] using h)
  | cons a accepts ih =>
    intro env deferred c
    cases a with
    | none =>
      simp only [StartMITMServer.loop]
      intro h
      rcases ih env deferred c h with h1 | h1
      · exact Or.inl h1
      · exact Or.inr (List.mem_cons_of_mem _ h1)
    | some conn =>
      have hi := StartMITMServer_iteration_deferred pr conn env c
      simp only [StartMITMServer.loop]
      split
      · intro h
        rcases ih _ _ c h with h1 | h1
        · rcases List.mem_append.1 h1 with h2 | h2
          · exact Or.inr (List.mem_cons_of_mem _ (List.mem_append_left _ (hi h2)))
          · exact Or.inl h2
        · exact Or.inr (List.mem_cons_of_mem _ (List.mem_append_right _ h1))
      · intro h
        rcases List.mem_append.1 h with h2 | h2
        · exact Or.inr (List.mem_cons_of_mem _ (hi h2))
        · exact Or.inl h2

/-- A connection that was opened and is never closed is open at the end. -/
theorem openConns_of_not_closed (c : Nat) (evs : List Event) :
    ∀ open_ : List Nat, Event.close c ∉ evs →
      (c ∈ open_ ∨ Event.accept c ∈ evs ∨ Event.dial c ∈ evs) → c ∈ openConns open_ evs := by
  induction evs with
  | nil => intro open_ _ h; simpa [openConns] using h
  | cons e evs ih =>
    intro open_ hc h
    have hc1 : Event.close c ∉ evs := fun hm => hc (List.mem_cons_of_mem _ hm)
    cases e with
    | accept a =>
      simp only [openConns]
      apply ih _ hc1
      simp only [List.mem_cons, Event.accept.injEq, reduceCtorEq, false_or] at h ⊢
      tauto
    | dial a =>
      simp only [openConns]
      apply ih _ hc1
      simp only [List.mem_cons, Event.dial.injEq, reduceCtorEq, false_or] at h ⊢
      tauto
    | close a =>
      simp only [openConns]
      apply ih _ hc1
      have hne : c ≠ a := fun hca => hc (by simp [hca])
      simp only [List.mem_cons, reduceCtorEq, false_or, List.mem_filter, bne_iff_ne, ne_eq] at h ⊢
      tauto
    | _ =>
      simp only [openConns]
      apply ih _ hc1
      simpa using h

/-- Every connection `StartMITMServer` closes is one it dialed. -/
theorem StartMITMServer_closes_dialed (pr : Primitives) (listen : Bool)
    (accepts : List (Option Conn)) (env : Env) (c : Nat)
    (h : Event.close c ∈ (StartMITMServer pr listen accepts env).events) :
    Event.dial c ∈ (StartMITMServer pr listen accepts env).events := by
  have hn := StartMITMServer_loop_no_close pr accepts env [] c
  have hd := StartMITMServer_loop_deferred pr accepts env [] c
  revert h
  unfold StartMITMServer
  split
  · unfold runDeferred
    split
    · intro h; exact absurd h hn
    · simp only [List.mem_append, List.mem_map, Event.close.injEq, exists_eq_right,
        List.mem_ite_nil_right, List.mem_singleton, reduceCtorEq, and_false, or_false]
      intro h
      rcases h with h | h
      · exact absurd h hn
      · rcases hd h with h1 | h1
        · simp at h1
        · exact Or.inl h1
  · simp

/-- The role `StartServer` closes no connection. -/
theorem StartServer_no_close (pr : Primitives) (listen : Bool)
    (accepts : List (Option Conn)) (env : Env) (c : Nat) :
    Event.close c ∉ (StartServer pr listen accepts env).events := by
  obtain ⟨hd, hc⟩ := StartServer_loop_no_close pr accepts env
  unfold StartServer
  split
  · unfold runDeferred
    split
    · exact hc c
    · simp only [hd, List.map_nil, List.append_nil, if_true, List.mem_append,
        List.mem_singleton, reduceCtorEq, or_false]
      exact hc c
  · simp

/-- C8, amended.  `StartServer` closes no connection at all, and every
connection `StartMITMServer` closes is one it dialed: a connection either
role accepted (for the relay, one that is not also a connection it dialed)
is never closed, neither while the accept loop runs nor by the deferred
calls on exit, and is still open when the run ends.  What is released on
every exit path is the listener, closed last when `StartServer` or
`StartMITMServer` exits by a panic, and in `Client` the dialed connection,
closed last on every exit after the dial. -/
theorem accepted_connections_never_closed (pr : Primitives) (listen : Bool)
    (accepts : List (Option Conn)) (env : Env) :
    (∀ c, Event.close c ∉ (StartServer pr listen accepts env).events) ∧
    (∀ c, Event.accept c ∈ (StartServer pr listen accepts env).events →
      c ∈ openConns [] (StartServer pr listen accepts env).events) ∧
    (∀ c, Event.close c ∈ (StartMITMServer pr listen accepts env).events →
      Event.dial c ∈ (StartMITMServer pr listen accepts env).events) ∧
    (∀ c, Event.accept c ∈ (StartMITMServer pr listen accepts env).events →
      Event.dial c ∉ (StartMITMServer pr listen accepts env).events →
      Event.close c ∉ (StartMITMServer pr listen accepts env).events ∧
      c ∈ openConns [] (StartMITMServer pr listen accepts env).events) ∧
    ((StartServer pr true accepts env).outcome = Outcome.panicked →
      (StartServer pr true accepts env).events.getLast? = some Event.closeListener) ∧
    ((StartMITMServer pr true accepts env).outcome = Outcome.panicked →
      (StartMITMServer pr true accepts env).events.getLast? = some Event.closeListener) ∧
    openConns [] (Client pr env).events = [] ∧
    (∀ c, Event.dial c ∈ (Client pr env).events →
      (Client pr env).events.getLast? = some (Event.close c)) := by
  refine ⟨StartServer_no_close pr listen accepts env, ?_, ?_, ?_, ?_, ?_,
    (Client_closes pr env).1, (Client_closes pr env).2⟩
  · intro c hacc
    exact openConns_of_not_closed c _ [] (StartServer_no_close pr listen accepts env c)
      (Or.inr (Or.inl hacc))
  · intro c h
    exact StartMITMServer_closes_dialed pr listen accepts env c h
  · intro c hacc hnd
    have hnc : Event.close c ∉ (StartMITMServer pr listen accepts env).events :=
      fun h => hnd (StartMITMServer_closes_dialed pr listen accepts env c h)
    exact ⟨hnc, openConns_of_not_closed c _ [] hnc (Or.inr (Or.inl hacc))⟩
  · intro h
    simp only [StartServer, if_true, runDeferred_outcome] at h ⊢
    rw [runDeferred_panicked _ _ h]
    simp
  · intro h
    simp only [StartMITMServer, if_true, runDeferred_outcome] at h ⊢
    rw [runDeferred_panicked _ _ h]
    simp

/-- C8, amended, on sample runs: a handling that panics in each server (the
relay closes the connection it dialed, not the one it accepted), and the
sample dial of `Client`. -/
theorem accepted_connections_never_closed_witness :
    (StartServer samplePrimitives true [some sampleBrokenConn] sampleEnv).outcome
      = Outcome.panicked ∧
    (StartServer samplePrimitives true [some sampleBrokenConn] sampleEnv).events.getLast?
      = some Event.closeListener ∧
    Event.accept 3 ∈
      (StartServer samplePrimitives true [some sampleBrokenConn] sampleEnv).events ∧
    3 ∈ openConns []
      (StartServer samplePrimitives true [some sampleBrokenConn] sampleEnv).events ∧
    (StartMITMServer samplePrimitives true [some sampleBrokenConn] sampleEnv).outcome
      = Outcome.panicked ∧
    Event.accept 3 ∈
      (StartMITMServer samplePrimitives true [some sampleBrokenConn] sampleEnv).events ∧
    Event.dial 3 ∉
      (StartMITMServer samplePrimitives true [some sampleBrokenConn] sampleEnv).events ∧
    Event.close 2 ∈
      (StartMITMServer samplePrimitives true [some sampleBrokenConn] sampleEnv).events ∧
    Event.dial 2 ∈
      (StartMITMServer samplePrimitives true [some sampleBrokenConn] sampleEnv).events ∧
    (Event.close 3 ∉
        (StartMITMServer samplePrimitives true [some sampleBrokenConn] sampleEnv).events ∧
      3 ∈ openConns []
        (StartMITMServer samplePrimitives true [some sampleBrokenConn] sampleEnv).events) ∧
    (StartMITMServer samplePrimitives true [some sampleBrokenConn] sampleEnv).events.getLast?
      = some Event.closeListener ∧
    Event.dial 2 ∈ (Client samplePrimitives sampleEnv).events ∧
    (Client samplePrimitives sampleEnv).events.getLast? = some (Event.close 2) :=
  ⟨by decide,
    (accepted_connections_never_closed samplePrimitives true [some sampleBrokenConn]
      sampleEnv).2.2.2.2.1 (by decide),
    by decide,
    (accepted_connections_never_closed samplePrimitives true [some sampleBrokenConn]
      sampleEnv).2.1 3 (by decide),
    by decide, by decide, by decide, by decide,
    (accepted_connections_never_closed samplePrimitives true [some sampleBrokenConn]
      sampleEnv).2.2.1 2 (by decide),
    (accepted_connections_never_closed samplePrimitives true [some sampleBrokenConn]
      sampleEnv).2.2.2.1 3 (by decide) (by decide),
    (accepted_connections_never_closed samplePrimitives true [some sampleBrokenConn]
      sampleEnv).2.2.2.2.2.1 (by decide),
    by decide,
    (accepted_connections_never_closed samplePrimitives true [some sampleBrokenConn]
      sampleEnv).2.2.2.2.2.2.2 2 (by decide)⟩

/-! ### What the relay forwards -/

theorem opened_eq_some (pr : Primitives) (c : DHClient) (m : Bytes)
    (h : c.opened pr = some m) :
    ∃ key ct iv, c.key = some key ∧ c.conn.incoming.head? = some (Frame.encrypted ct iv) ∧
      pr.decrypt key iv ct = some m := by
  unfold DHClient.opened at h
  split at h
  · rename_i key ct iv hk hf
    exact ⟨key, ct, iv, hk, hf, h⟩
  · cases h

/-- What `ReadEncrypted` returns is the decryption of an ENCRYPTED frame under
the key of the channel. -/
theorem opened_eq_some_iff (pr : Primitives) (c : DHClient) (m : Bytes) :
    c.opened pr = some m ↔
      ∃ key ct iv, c.key = some key ∧ c.conn.incoming.head? = some (Frame.encrypted ct iv) ∧
        pr.decrypt key iv ct = some m := by
  constructor
  · exact opened_eq_some pr c m
  · rintro ⟨key, ct, iv, hk, hf, hd⟩
    simp [DHClient.opened, hk, hf, hd]

/-- What `SendEncrypted` writes is the encryption of the plaintext under the
key of the channel with the IV it was given, and that IV. -/
theorem sealed_eq_some_iff (pr : Primitives) (c : DHClient) (m iv : Bytes) (g : Frame) :
    c.sealed pr m iv = some g ↔
      ∃ key, c.key = some key ∧ 0 < c.conn.writable ∧
        g = Frame.encrypted (pr.encrypt key iv m) iv := by
  unfold DHClient.sealed
  split
  · rename_i hk; simp [hk]
  · rename_i key hk
    split
    · rename_i hw; simp [hk, hw, eq_comm]
    · rename_i hw; simp [hk, hw]

theorem some_eq_sealed_iff (pr : Primitives) (c : DHClient) (m iv : Bytes) (g : Frame) :
    some g = c.sealed pr m iv ↔
      ∃ key, c.key = some key ∧ 0 < c.conn.writable ∧
        g = Frame.encrypted (pr.encrypt key iv m) iv := by
  rw [eq_comm, sealed_eq_some_iff]

set_option maxHeartbeats 4000000 in
/-- Every plaintext `ReadEncrypted` returns to the relay comes from an
ENCRYPTED frame, decrypted under the key of the leg it was read on, and is
passed to `SendEncrypted` on the other leg. -/
theorem Relay_reads_encrypted (pr : Primitives) (conn : Conn) (env : Env) :
    ∀ (name : String) (c : Nat) (f : Option Frame) (m : Bytes),
      Event.readEncrypted name c f (some m) ∈ (StartMITMServer.iteration pr conn env).events →
      ((name = "Eve" ∧ c = conn.id) ∨
        (name = "EveClient" ∧ ∃ cc, env.dials.headD none = some cc ∧ c = cc.id)) ∧
      ∃ ct iv k p, f = some (Frame.encrypted ct iv) ∧
        Event.generateSessionKeys name p (some k) ∈
          (StartMITMServer.iteration pr conn env).events ∧
        pr.decrypt k iv ct = some m ∧
        ∃ c1 w, Event.sendEncrypted (otherLeg name) c1 m w ∈
          (StartMITMServer.iteration pr conn env).events := by
  unfold StartMITMServer.iteration
  simp only []
  repeat' split
  all_goals simp_all [otherLeg, DHSession.GenerateSessionKeys]
  all_goals simp_all [opened_eq_some_iff]
  all_goals simp_all [Env.nextIV, Env.nextExp, Env.nextDial]
  all_goals aesop

set_option maxHeartbeats 4000000 in
/-- Every frame `SendEncrypted` writes for the relay is the encryption, under
the key of the leg it is written on and the IV drawn at that moment, of a
plaintext `ReadEncrypted` returned on the other leg. -/
theorem Relay_writes_encrypted (pr : Primitives) (conn : Conn) (env : Env) :
    ∀ (name : String) (c : Nat) (m : Bytes) (g : Frame),
      Event.sendEncrypted name c m (some g) ∈ (StartMITMServer.iteration pr conn env).events →
      ((name = "EveClient" ∧ ∃ cc, env.dials.headD none = some cc ∧ c = cc.id) ∨
        (name = "Eve" ∧ c = conn.id)) ∧
      ∃ k p c1 ct iv,
        Event.generateSessionKeys name p (some k) ∈
          (StartMITMServer.iteration pr conn env).events ∧
        g = Frame.encrypted
          (pr.encrypt k (if name = "EveClient" then env.ivs.headD [] else env.ivs.tail.headD []) m)
          (if name = "EveClient" then env.ivs.headD [] else env.ivs.tail.headD []) ∧
        Event.readEncrypted (otherLeg name) c1 (some (Frame.encrypted ct iv)) (some m) ∈
          (StartMITMServer.iteration pr conn env).events ∧
        ((if name = "EveClient" then env.ivs.headD [] else env.ivs.tail.headD []) ≠ iv →
          g ≠ Frame.encrypted ct iv) := by
  unfold StartMITMServer.iteration
  simp only []
  repeat' split
  all_goals simp_all [otherLeg, DHSession.GenerateSessionKeys]
  all_goals simp_all [opened_eq_some_iff, sealed_eq_some_iff, some_eq_sealed_iff]
  all_goals simp_all [Env.nextIV, Env.nextExp, Env.nextDial]
  all_goals aesop

/-- C4, amended.  In every handling of a connection by the relay, whether or
not it later fails: every plaintext `m` that `ReadEncrypted` returns on one
leg (`Eve` on the accepted connection, `EveClient` on the dialed one) is the
decryption, under the session key of that leg, of the ENCRYPTED frame
`(ct, iv)` taken off that leg, and is passed to `SendEncrypted` on the other
leg; and every frame `SendEncrypted` writes is the encryption of such a
plaintext under the session key of the leg it is written on with the IV
drawn at that moment (the first IV drawn for the frame to the Responder, the
second for the frame to the Initiator), carrying that IV.  The relay
re-encrypts: the frame it writes differs from the frame it received whenever
the IV drawn differs from the IV received.  Both session keys are the
degenerate key when the exponents the relay draws are at least `1`. -/
theorem relay_reencrypts_plaintext (pr : Primitives) (conn : Conn) (env : Env) :
    (∀ (name : String) (c : Nat) (f : Option Frame) (m : Bytes),
      Event.readEncrypted name c f (some m) ∈ (StartMITMServer.iteration pr conn env).events →
      ((name = "Eve" ∧ c = conn.id) ∨
        (name = "EveClient" ∧ ∃ cc, env.dials.headD none = some cc ∧ c = cc.id)) ∧
      ∃ ct iv k p, f = some (Frame.encrypted ct iv) ∧
        Event.generateSessionKeys name p (some k) ∈
          (StartMITMServer.iteration pr conn env).events ∧
        pr.decrypt k iv ct = some m ∧
        ∃ c1 w, Event.sendEncrypted (otherLeg name) c1 m w ∈
          (StartMITMServer.iteration pr conn env).events) ∧
    (∀ (name : String) (c : Nat) (m : Bytes) (g : Frame),
      Event.sendEncrypted name c m (some g) ∈ (StartMITMServer.iteration pr conn env).events →
      ((name = "EveClient" ∧ ∃ cc, env.dials.headD none = some cc ∧ c = cc.id) ∨
        (name = "Eve" ∧ c = conn.id)) ∧
      ∃ k p c1 ct iv,
        Event.generateSessionKeys name p (some k) ∈
          (StartMITMServer.iteration pr conn env).events ∧
        g = Frame.encrypted
          (pr.encrypt k (if name = "EveClient" then env.ivs.headD [] else env.ivs.tail.headD []) m)
          (if name = "EveClient" then env.ivs.headD [] else env.ivs.tail.headD []) ∧
        Event.readEncrypted (otherLeg name) c1 (some (Frame.encrypted ct iv)) (some m) ∈
          (StartMITMServer.iteration pr conn env).events ∧
        ((if name = "EveClient" then env.ivs.headD [] else env.ivs.tail.headD []) ≠ iv →
          g ≠ Frame.encrypted ct iv)) ∧
    (1 ≤ env.exps.headD 0 → 1 ≤ env.exps.tail.headD 0 →
      ∀ (name : String) (p : Nat) (k : Option Bytes),
        Event.generateSessionKeys name p k ∈ (StartMITMServer.iteration pr conn env).events →
        k = some (degenerateKey pr)) := by
  refine ⟨Relay_reads_encrypted pr conn env, Relay_writes_encrypted pr conn env, ?_⟩
  intro h1 h2 name p k hev
  cases hx : env.exps with
  | nil => simp [hx] at h1
  | cons d1 rest =>
    cases hr : rest with
    | nil => simp [hx, hr] at h2
    | cons d2 more =>
      subst hr
      simp only [hx, List.headD_cons, List.tail_cons] at h1 h2
      exact relay_keys_degenerate pr conn env d1 d2 more hx h1 h2 name p k hev

/-- The block-shaped instance rejects a ciphertext that is not a whole
number of blocks, and round-trips. -/
theorem blockPrimitives_rejects_partial_block :
    blockPrimitives.decrypt (degenerateKey blockPrimitives) (List.replicate 16 0) [1, 2, 3]
      = none ∧
    blockPrimitives.decrypt (degenerateKey blockPrimitives) (List.replicate 16 0)
      (List.replicate 15 29) = none ∧
    blockPrimitives.encrypt (degenerateKey blockPrimitives) (List.replicate 16 0) [1, 2, 3]
      = [17, 18, 19] ++ List.replicate 13 29 ∧
    blockPrimitives.decrypt (degenerateKey blockPrimitives) (List.replicate 16 0)
      ([17, 18, 19] ++ List.replicate 13 29) = some [1, 2, 3] := by
  decide

/-- C4, as stated, fails.  Under the block-shaped instance the relay takes
the frame `([17, 18, 19, 29, ..., 29], IV 0...0)`, one whole block that
decrypts under the degenerate key to `[1, 2, 3]`, off the Initiator's leg and
writes `([129, 130, 131, 141, ..., 141], IV 7...7)`, a new encryption of
`[1, 2, 3]` with the IV it drew, on the Responder's leg: neither the
ciphertext nor the IV is the one received.  Likewise in the other direction.
The handling ends without error. -/
theorem relay_writes_new_bytes :
    (StartMITMServer.iteration blockPrimitives blockInitiatorConn blockEnv).outcome
      = Outcome.ok ∧
    encryptedOnly (taken 1
        (StartMITMServer.iteration blockPrimitives blockInitiatorConn blockEnv).events)
      = [Frame.encrypted ([17, 18, 19] ++ List.replicate 13 29) (List.replicate 16 0)] ∧
    encryptedOnly (written 2
        (StartMITMServer.iteration blockPrimitives blockInitiatorConn blockEnv).events)
      = [Frame.encrypted ([129, 130, 131] ++ List.replicate 13 141) (List.replicate 16 7)] ∧
    encryptedOnly (taken 2
        (StartMITMServer.iteration blockPrimitives blockInitiatorConn blockEnv).events)
      = [Frame.encrypted ([33, 34, 35] ++ List.replicate 13 45) (List.replicate 16 1)] ∧
    encryptedOnly (written 1
        (StartMITMServer.iteration blockPrimitives blockInitiatorConn blockEnv).events)
      = [Frame.encrypted ([145, 146, 147] ++ List.replicate 13 157) (List.replicate 16 8)] ∧
    encryptedOnly (written 2
        (StartMITMServer.iteration blockPrimitives blockInitiatorConn blockEnv).events)
      ≠ encryptedOnly (taken 1
        (StartMITMServer.iteration blockPrimitives blockInitiatorConn blockEnv).events) ∧
    encryptedOnly (written 1
        (StartMITMServer.iteration blockPrimitives blockInitiatorConn blockEnv).events)
      ≠ encryptedOnly (taken 2
        (StartMITMServer.iteration blockPrimitives blockInitiatorConn blockEnv).events) := by
  decide

/-- The condition on the IVs cannot be dropped: when the IVs the relay draws
happen to be the IVs of the frames it receives (`0...0` and `1...1` here),
the new encryptions it writes carry the same bytes as the frames it took. -/
theorem relay_same_iv_same_bytes :
    encryptedOnly (written 2
        (StartMITMServer.iteration blockPrimitives blockInitiatorConn
          { blockEnv with ivs := [List.replicate 16 0, List.replicate 16 1] }).events)
      = encryptedOnly (taken 1
        (StartMITMServer.iteration blockPrimitives blockInitiatorConn
          { blockEnv with ivs := [List.replicate 16 0, List.replicate 16 1] }).events) ∧
    encryptedOnly (written 1
        (StartMITMServer.iteration blockPrimitives blockInitiatorConn
          { blockEnv with ivs := [List.replicate 16 0, List.replicate 16 1] }).events)
      = encryptedOnly (taken 2
        (StartMITMServer.iteration blockPrimitives blockInitiatorConn
          { blockEnv with ivs := [List.replicate 16 0, List.replicate 16 1] }).events) := by
  decide

/-- C4, amended, on the sample connection of the block-shaped instance: the
frame read on the Initiator's leg, the frame written on the Responder's leg,
and the exponents `3` and `4`. -/
theorem relay_reencrypts_plaintext_witness :
    Event.readEncrypted "Eve" 1
        (some (Frame.encrypted ([17, 18, 19] ++ List.replicate 13 29) (List.replicate 16 0)))
        (some [1, 2, 3])
      ∈ (StartMITMServer.iteration blockPrimitives blockInitiatorConn blockEnv).events ∧
    Event.sendEncrypted "EveClient" 2 [1, 2, 3]
        (some (Frame.encrypted ([129, 130, 131] ++ List.replicate 13 141)
          (List.replicate 16 7)))
      ∈ (StartMITMServer.iteration blockPrimitives blockInitiatorConn blockEnv).events ∧
    1 ≤ blockEnv.exps.headD 0 ∧ 1 ≤ blockEnv.exps.tail.headD 0 ∧
    (((("Eve" : String) = "Eve" ∧ 1 = blockInitiatorConn.id) ∨
        (("Eve" : String) = "EveClient" ∧
          ∃ cc, blockEnv.dials.headD none = some cc ∧ 1 = cc.id)) ∧
      ∃ ct iv k p,
        some (Frame.encrypted ([17, 18, 19] ++ List.replicate 13 29) (List.replicate 16 0))
          = some (Frame.encrypted ct iv) ∧
        Event.generateSessionKeys "Eve" p (some k) ∈
          (StartMITMServer.iteration blockPrimitives blockInitiatorConn blockEnv).events ∧
        blockPrimitives.decrypt k iv ct = some [1, 2, 3] ∧
        ∃ c1 w, Event.sendEncrypted (otherLeg "Eve") c1 [1, 2, 3] w ∈
          (StartMITMServer.iteration blockPrimitives blockInitiatorConn blockEnv).events) ∧
    (((("EveClient" : String) = "EveClient" ∧
          ∃ cc, blockEnv.dials.headD none = some cc ∧ 2 = cc.id) ∨
        (("EveClient" : String) = "Eve" ∧ 2 = blockInitiatorConn.id)) ∧
      ∃ k p c1 ct iv,
        Event.generateSessionKeys "EveClient" p (some k) ∈
          (StartMITMServer.iteration blockPrimitives blockInitiatorConn blockEnv).events ∧
        Frame.encrypted ([129, 130, 131] ++ List.replicate 13 141) (List.replicate 16 7)
          = Frame.encrypted
            (blockPrimitives.encrypt k
              (if ("EveClient" : String) = "EveClient" then blockEnv.ivs.headD []
                else blockEnv.ivs.tail.headD []) [1, 2, 3])
            (if ("EveClient" : String) = "EveClient" then blockEnv.ivs.headD []
              else blockEnv.ivs.tail.headD []) ∧
        Event.readEncrypted (otherLeg "EveClient") c1 (some (Frame.encrypted ct iv))
            (some [1, 2, 3])
          ∈ (StartMITMServer.iteration blockPrimitives blockInitiatorConn blockEnv).events ∧
        ((if ("EveClient" : String) = "EveClient" then blockEnv.ivs.headD []
            else blockEnv.ivs.tail.headD []) ≠ iv →
          Frame.encrypted ([129, 130, 131] ++ List.replicate 13 141) (List.replicate 16 7)
            ≠ Frame.encrypted ct iv)) ∧
    (∀ (name : String) (p : Nat) (k : Option Bytes),
      Event.generateSessionKeys name p k ∈
        (StartMITMServer.iteration blockPrimitives blockInitiatorConn blockEnv).events →
      k = some (degenerateKey blockPrimitives)) :=
  ⟨by decide, by decide, by decide, by decide,
    (relay_reencrypts_plaintext blockPrimitives blockInitiatorConn blockEnv).1 "Eve" 1 _ _
      (by decide),
    (relay_reencrypts_plaintext blockPrimitives blockInitiatorConn blockEnv).2.1 "EveClient" 2 _ _
      (by decide),
    (relay_reencrypts_plaintext blockPrimitives blockInitiatorConn blockEnv).2.2 (by decide)
      (by decide)⟩

/-! ### The echo -/

set_option maxHeartbeats 2000000 in
/-- Whatever it receives, `Client` first writes its exchange. -/
theorem Client_first_frame (pr : Primitives) (env : Env) (conn : Conn) (bA : Bytes)
    (henc : encode pr ⟨⟨37, 5⟩, 5 ^ env.exps.headD 0 % 37⟩ = some bA)
    (hdial : env.dials.headD none = some conn) (hw : 1 ≤ conn.writable) :
    (written conn.id (Client pr env).events).head? = some (Frame.exchange bA) := by
  have hs := NewDHSession_eq 37 5 env.nextExp.1 (by decide)
  have hd : env.nextExp.2.nextDial.1 = some conn := hdial
  have hw0 : 0 < conn.writable := hw
  have henc1 : encode pr ⟨⟨37, 5⟩, 5 ^ env.nextExp.1 % 37⟩ = some bA := henc
  unfold Client Client.body runDeferred
  simp only [hs, henc1, hd]
  repeat' split
  all_goals simp_all [written, Event.writes]

set_option maxHeartbeats 2000000 in
/-- Once `Client` has received an exchange, what it writes is its own
exchange and then the secret message encrypted under the key derived from the
received public value, with the IV it drew. -/
theorem Client_writes (pr : Primitives) (env : Env) (conn : Conn) (bA pB : Bytes)
    (eB : DHExchange)
    (henc : encode pr ⟨⟨37, 5⟩, 5 ^ env.exps.headD 0 % 37⟩ = some bA)
    (hdial : env.dials.headD none = some conn) (hw : 2 ≤ conn.writable)
    (hin : conn.incoming.head? = some (Frame.exchange pB))
    (hdec : pr.gobDecode pB = some eB) :
    written conn.id (Client pr env).events
      = [Frame.exchange bA,
         Frame.encrypted
           (pr.encrypt ((pr.hash (natBytes (eB.PublicKey ^ env.exps.headD 0 % 37))).take 16)
             (env.ivs.headD []) (bytesOf SECRET_MESSAGE))
           (env.ivs.headD [])] := by
  have hs := NewDHSession_eq 37 5 env.nextExp.1 (by decide)
  have hd : env.nextExp.2.nextDial.1 = some conn := hdial
  have hw0 : 0 < conn.writable := by omega
  have hw1 : 0 < conn.writable - 1 := by omega
  have henc1 : encode pr ⟨⟨37, 5⟩, 5 ^ env.nextExp.1 % 37⟩ = some bA := henc
  unfold Client Client.body runDeferred
  simp only [hs, henc1, hd]
  simp [DHClient.decoded, DHClient.sealed, DHSession.GenerateSessionKeys,
    DHSession.sharedSecret, hin, hdec, hw0, hw1]
  repeat' split
  all_goals simp_all [written, Event.writes, Env.nextIV, Env.nextExp, Env.nextDial]


theorem decoded_of_head (pr : Primitives) (c : DHClient) (p : Bytes) (e : DHExchange)
    (hread : c.conn.incoming.head? = some (Frame.exchange p))
    (hdec : pr.gobDecode p = some e) :
    c.decoded pr MessageType.DHE_MSG_EXCHANGE = some (Message.DHExchange e) := by
  simp [DHClient.decoded, hread, hdec]

set_option maxHeartbeats 2000000 in
/-- When `Client` receives an exchange and then a frame that decrypts, under
the key derived from the received public value, to `m`, it returns `nil`
and `ReadEncrypted` returned `m`. -/
theorem Client_reads (pr : Primitives) (env : Env) (conn : Conn) (bA pB ct iv m : Bytes)
    (eB : DHExchange)
    (henc : encode pr ⟨⟨37, 5⟩, 5 ^ env.exps.headD 0 % 37⟩ = some bA)
    (hdial : env.dials.headD none = some conn) (hw : 2 ≤ conn.writable)
    (hin : conn.incoming.head? = some (Frame.exchange pB))
    (hdec : pr.gobDecode pB = some eB)
    (hin2 : conn.incoming.tail.head? = some (Frame.encrypted ct iv))
    (hm : pr.decrypt ((pr.hash (natBytes (eB.PublicKey ^ env.exps.headD 0 % 37))).take 16)
      iv ct = some m) :
    (Client pr env).outcome = Outcome.ok ∧
    Event.sendEncrypted "Alice" conn.id (bytesOf SECRET_MESSAGE)
      (some (Frame.encrypted
        (pr.encrypt ((pr.hash (natBytes (eB.PublicKey ^ env.exps.headD 0 % 37))).take 16)
          (env.ivs.headD []) (bytesOf SECRET_MESSAGE))
        (env.ivs.headD []))) ∈ (Client pr env).events ∧
    Event.readEncrypted "Alice" conn.id (some (Frame.encrypted ct iv)) (some m)
      ∈ (Client pr env).events := by
  have hs := NewDHSession_eq 37 5 env.nextExp.1 (by decide)
  have hd : env.nextExp.2.nextDial.1 = some conn := hdial
  have hw0 : 0 < conn.writable := by omega
  have hw1 : 0 < conn.writable - 1 := by omega
  have henc1 : encode pr ⟨⟨37, 5⟩, 5 ^ env.nextExp.1 % 37⟩ = some bA := henc
  have hin2' : conn.incoming[1]? = some (Frame.encrypted ct iv) := by simpa using hin2
  have hm' : pr.decrypt ((pr.hash (natBytes (eB.PublicKey ^ env.nextExp.1 % 37))).take 16)
      iv ct = some m := hm
  unfold Client Client.body runDeferred
  simp only [hs, henc1, hd]
  simp [DHClient.decoded, DHClient.sealed, DHClient.opened, DHSession.GenerateSessionKeys,
    DHSession.sharedSecret, hin, hdec, hw0, hw1, hin2', hm']
  simp [Env.nextIV, Env.nextExp, Env.nextDial]

set_option maxHeartbeats 2000000 in
/-- Once `StartServer` has received an exchange on a connection, the first
frame it writes is the exchange with its own public value. -/
theorem Server_first_frame (pr : Primitives) (env : Env) (conn : Conn) (pA bB : Bytes)
    (eA : DHExchange)
    (hin : conn.incoming.head? = some (Frame.exchange pA))
    (hdec : pr.gobDecode pA = some eA) (hP : 2 < eA.Group.P)
    (henc : encode pr ⟨eA.Group, eA.Group.G ^ env.exps.headD 0 % eA.Group.P⟩ = some bB)
    (hw : 1 ≤ conn.writable) :
    (written conn.id (StartServer.iteration pr conn env).events).head?
      = some (Frame.exchange bB) := by
  have hs := NewDHSession_eq eA.Group.P eA.Group.G env.nextExp.1 hP
  have hw0 : 0 < conn.writable := hw
  have henc1 : encode pr ⟨eA.Group, eA.Group.G ^ env.nextExp.1 % eA.Group.P⟩ = some bB := henc
  have hd := decoded_of_head pr ⟨"Bob", conn, none⟩ pA eA hin hdec
  unfold StartServer.iteration
  simp only [ReadMessage_result, ReadMessage_env, hd, hs]
  simp only [DHSession.GenerateSessionKeys, henc1]
  repeat' split
  all_goals simp_all [written, Event.writes]

set_option maxHeartbeats 2000000 in
/-- When `StartServer` receives an exchange and then a frame that decrypts,
under the key derived from the received public value, to `m`, the handling
ends without error: it wrote its exchange and then `m` encrypted under the
same key with the IV it drew. -/
theorem Server_echoes (pr : Primitives) (env : Env) (conn : Conn) (pA bB ct iv m : Bytes)
    (eA : DHExchange)
    (hin : conn.incoming.head? = some (Frame.exchange pA))
    (hdec : pr.gobDecode pA = some eA) (hP : 2 < eA.Group.P)
    (henc : encode pr ⟨eA.Group, eA.Group.G ^ env.exps.headD 0 % eA.Group.P⟩ = some bB)
    (hw : 2 ≤ conn.writable)
    (hin2 : conn.incoming.tail.head? = some (Frame.encrypted ct iv))
    (hm : pr.decrypt
      ((pr.hash (natBytes (eA.PublicKey ^ env.exps.headD 0 % eA.Group.P))).take 16)
      iv ct = some m) :
    (StartServer.iteration pr conn env).outcome = Outcome.ok ∧
    written conn.id (StartServer.iteration pr conn env).events
      = [Frame.exchange bB,
         Frame.encrypted
           (pr.encrypt
             ((pr.hash (natBytes (eA.PublicKey ^ env.exps.headD 0 % eA.Group.P))).take 16)
             (env.ivs.headD []) m)
           (env.ivs.headD [])] := by
  have hs := NewDHSession_eq eA.Group.P eA.Group.G env.nextExp.1 hP
  have hw0 : 0 < conn.writable := by omega
  have hw1 : 0 < conn.writable - 1 := by omega
  have henc1 : encode pr ⟨eA.Group, eA.Group.G ^ env.nextExp.1 % eA.Group.P⟩ = some bB := henc
  have hd := decoded_of_head pr ⟨"Bob", conn, none⟩ pA eA hin hdec
  have hin2' : conn.incoming[1]? = some (Frame.encrypted ct iv) := by simpa using hin2
  have hm' : pr.decrypt
      ((pr.hash (natBytes (eA.PublicKey ^ env.nextExp.1 % eA.Group.P))).take 16)
      iv ct = some m := hm
  unfold StartServer.iteration
  simp only [ReadMessage_result, ReadMessage_env, hd, hs]
  simp only [DHSession.GenerateSessionKeys, henc1]
  simp [DHClient.sealed, DHClient.opened, DHSession.sharedSecret, hin, hw0, hw1, hin2', hm',
    written, Event.writes]
  simp [Env.nextIV, Env.nextExp, Env.nextDial]


/-- The honest exchange: when `Client` and the handling of its connection by
`StartServer` are wired to each other (each reads exactly the frames the
other writes), the codec and the cipher round-trip, and both streams take
two writes, both ends finish without error and `Client` reads back the
secret message it sent. -/
theorem honest_echo (pr : Primitives)
    (hrt : ∀ k iv m, pr.decrypt k iv (pr.encrypt k iv m) = some m)
    (hgob : ∀ e, ∃ b, pr.gobEncode e = some b ∧ pr.gobDecode b = some e)
    (envA envB : Env) (connA connB : Conn)
    (hdial : envA.dials.headD none = some connA)
    (hwA : 2 ≤ connA.writable) (hwB : 2 ≤ connB.writable)
    (hA : connA.incoming = written connB.id (StartServer.iteration pr connB envB).events)
    (hB : connB.incoming = written connA.id (Client pr envA).events) :
    (Client pr envA).outcome = Outcome.ok ∧
    (StartServer.iteration pr connB envB).outcome = Outcome.ok ∧
    ∃ f, f ∈ written connB.id (StartServer.iteration pr connB envB).events ∧
      Event.sendEncrypted "Alice" connA.id (bytesOf SECRET_MESSAGE) (connB.incoming[1]?)
        ∈ (Client pr envA).events ∧
      Event.readEncrypted "Alice" connA.id (some f) (some (bytesOf SECRET_MESSAGE))
        ∈ (Client pr envA).events := by
  obtain ⟨bA, hencA, hdecA⟩ := hgob ⟨⟨37, 5⟩, 5 ^ envA.exps.headD 0 % 37⟩
  obtain ⟨bB, hencB, hdecB⟩ := hgob ⟨⟨37, 5⟩, 5 ^ envB.exps.headD 0 % 37⟩
  have h37 : (2 : Nat) < 37 := by decide
  have c1 := Client_first_frame pr envA connA bA hencA hdial (by omega)
  rw [← hB] at c1
  have s1 := Server_first_frame pr envB connB bA bB _ c1 hdecA h37 hencB (by omega)
  rw [← hA] at s1
  have c2 := Client_writes pr envA connA bA bB _ hencA hdial hwA s1 hdecB
  rw [← hB] at c2
  have hkey : (5 ^ envA.exps.headD 0 % 37) ^ envB.exps.headD 0 % 37
      = (5 ^ envB.exps.headD 0 % 37) ^ envA.exps.headD 0 % 37 := pow_mod_comm 37 5 _ _
  have s2 := Server_echoes pr envB connB bA bB _ _ (bytesOf SECRET_MESSAGE) _ c1 hdecA
    h37 hencB hwB (by rw [c2]; rfl) (by
      simp only []
      rw [hkey]
      exact hrt _ _ _)
  have hA2 := hA
  rw [s2.2] at hA2
  have c3 := Client_reads pr envA connA bA bB _ _ (bytesOf SECRET_MESSAGE) _ hencA hdial hwA s1
    hdecB (by rw [hA2]; rfl) (by
      simp only []
      rw [hkey]
      exact hrt _ _ _)
  refine ⟨c3.1, s2.1, _, ?_, ?_, c3.2.2⟩
  · rw [s2.2]; simp
  · rw [c2]; exact c3.2.1

set_option maxHeartbeats 2000000 in
/-- Once the relay has received an exchange on the accepted connection, the
first frame it writes there is the exchange with the modulus as public
value. -/
theorem Relay_first_frame (pr : Primitives) (env : Env) (conn : Conn) (pA bP : Bytes)
    (eA : DHExchange)
    (hin : conn.incoming.head? = some (Frame.exchange pA))
    (hdec : pr.gobDecode pA = some eA) (hP : 2 < eA.Group.P)
    (henc : encode pr ⟨eA.Group, eA.Group.P⟩ = some bP)
    (hw : 1 ≤ conn.writable) :
    (written conn.id (StartMITMServer.iteration pr conn env).events).head?
      = some (Frame.exchange bP) := by
  have hs := NewDHSession_eq eA.Group.P eA.Group.G env.nextExp.1 hP
  have hw0 : 0 < conn.writable := hw
  have hd := decoded_of_head pr ⟨"Eve", conn, none⟩ pA eA hin hdec
  unfold StartMITMServer.iteration
  simp only [ReadMessage_result, ReadMessage_env, hd, hs]
  simp only [henc]
  repeat' split
  all_goals simp_all [written, Event.writes]

set_option maxHeartbeats 2000000 in
/-- Once the relay has received an exchange and dialed the Responder, the
first frame it writes on the dialed connection is the same exchange. -/
theorem Relay_first_frame_dialed (pr : Primitives) (env : Env) (conn cc : Conn)
    (pA bP : Bytes) (eA : DHExchange)
    (hin : conn.incoming.head? = some (Frame.exchange pA))
    (hdec : pr.gobDecode pA = some eA) (hP : 2 < eA.Group.P)
    (henc : encode pr ⟨eA.Group, eA.Group.P⟩ = some bP)
    (hdial : env.dials.headD none = some cc) (hne : conn.id ≠ cc.id)
    (hw : 1 ≤ cc.writable) :
    (written cc.id (StartMITMServer.iteration pr conn env).events).head?
      = some (Frame.exchange bP) := by
  have hs := NewDHSession_eq eA.Group.P eA.Group.G env.nextExp.1 hP
  have hs2 := NewDHSession_eq eA.Group.P eA.Group.G env.nextExp.2.nextDial.2.nextExp.1 hP
  have hw0 : 0 < cc.writable := hw
  have hd := decoded_of_head pr ⟨"Eve", conn, none⟩ pA eA hin hdec
  have hdl : env.nextExp.2.nextDial.1 = some cc := hdial
  unfold StartMITMServer.iteration
  simp only [ReadMessage_result, ReadMessage_env, Send_env, hd, hs, hs2, hdl]
  simp only [henc]
  repeat' split
  all_goals simp_all [written, Event.writes]

set_option maxHeartbeats 4000000 in
/-- When the relay has both exchanges and the Initiator's frame decrypts
under the degenerate key to `m`, what it writes on the dialed connection is
the tampered exchange and then `m` encrypted under the degenerate key with
the IV it drew. -/
theorem Relay_forwards (pr : Primitives) (env : Env) (conn cc : Conn)
    (pA bP pB ct iv m : Bytes) (eA eB : DHExchange)
    (hin : conn.incoming.head? = some (Frame.exchange pA))
    (hdec : pr.gobDecode pA = some eA) (hP : 2 < eA.Group.P)
    (henc : encode pr ⟨eA.Group, eA.Group.P⟩ = some bP)
    (hdial : env.dials.headD none = some cc) (hne : conn.id ≠ cc.id)
    (hwc : 2 ≤ cc.writable)
    (hexp1 : 1 ≤ env.exps.headD 0) (hexp2 : 1 ≤ env.exps.tail.headD 0)
    (hcin : cc.incoming.head? = some (Frame.exchange pB))
    (hcdec : pr.gobDecode pB = some eB)
    (hin2 : conn.incoming.tail.head? = some (Frame.encrypted ct iv))
    (hm : pr.decrypt (degenerateKey pr) iv ct = some m) :
    written cc.id (StartMITMServer.iteration pr conn env).events
      = [Frame.exchange bP,
         Frame.encrypted (pr.encrypt (degenerateKey pr) (env.ivs.headD []) m)
           (env.ivs.headD [])] := by
  have hs := NewDHSession_eq eA.Group.P eA.Group.G env.nextExp.1 hP
  have hs2 := NewDHSession_eq eA.Group.P eA.Group.G env.nextExp.2.nextDial.2.nextExp.1 hP
  have hk1 : eA.Group.P ^ env.nextExp.1 % eA.Group.P = 0 := modulus_pow_mod _ _ hexp1
  have hk2 : eA.Group.P ^ env.nextExp.2.nextDial.2.nextExp.1 % eA.Group.P = 0 :=
    modulus_pow_mod _ _ hexp2
  have hw0 : 0 < cc.writable := by omega
  have hw1 : 0 < cc.writable - 1 := by omega
  have hd := decoded_of_head pr ⟨"Eve", conn, none⟩ pA eA hin hdec
  have hdl : env.nextExp.2.nextDial.1 = some cc := hdial
  have hin2' : conn.incoming[1]? = some (Frame.encrypted ct iv) := by simpa using hin2
  have hm0 : pr.decrypt ((pr.hash (natBytes 0)).take 16) iv ct = some m := hm
  unfold StartMITMServer.iteration
  simp only [ReadMessage_result, ReadMessage_env, Send_env, hd, hs, hs2, hdl]
  simp only [henc]
  simp [DHClient.decoded, DHClient.sealed, DHClient.opened, DHSession.GenerateSessionKeys,
    DHSession.sharedSecret, hk1, hk2, hcin, hcdec, hw0, hw1, hin2', hm0, degenerateKey]
  repeat' split
  all_goals simp_all [written, Event.writes, Env.nextIV, Env.nextExp, Env.nextDial]

set_option maxHeartbeats 4000000 in
/-- When moreover the Responder's frame decrypts under the degenerate key to
`m1`, the relay handles the connection without error: `ReadEncrypted`
returned `m` on the Initiator's leg and `m1` on the Responder's, and what it
wrote to the Initiator is the tampered exchange and then `m1` encrypted under
the degenerate key with the second IV it drew. -/
theorem Relay_returns (pr : Primitives) (env : Env) (conn cc : Conn)
    (pA bP pB ct iv m ct1 iv1 m1 : Bytes) (eA eB : DHExchange)
    (hin : conn.incoming.head? = some (Frame.exchange pA))
    (hdec : pr.gobDecode pA = some eA) (hP : 2 < eA.Group.P)
    (henc : encode pr ⟨eA.Group, eA.Group.P⟩ = some bP)
    (hdial : env.dials.headD none = some cc) (hne : conn.id ≠ cc.id)
    (hw : 2 ≤ conn.writable) (hwc : 2 ≤ cc.writable)
    (hexp1 : 1 ≤ env.exps.headD 0) (hexp2 : 1 ≤ env.exps.tail.headD 0)
    (hcin : cc.incoming.head? = some (Frame.exchange pB))
    (hcdec : pr.gobDecode pB = some eB)
    (hin2 : conn.incoming.tail.head? = some (Frame.encrypted ct iv))
    (hm : pr.decrypt (degenerateKey pr) iv ct = some m)
    (hcin2 : cc.incoming.tail.head? = some (Frame.encrypted ct1 iv1))
    (hm1 : pr.decrypt (degenerateKey pr) iv1 ct1 = some m1) :
    (StartMITMServer.iteration pr conn env).outcome = Outcome.ok ∧
    written conn.id (StartMITMServer.iteration pr conn env).events
      = [Frame.exchange bP,
         Frame.encrypted (pr.encrypt (degenerateKey pr) (env.ivs.tail.headD []) m1)
           (env.ivs.tail.headD [])] ∧
    Event.readEncrypted "Eve" conn.id (some (Frame.encrypted ct iv)) (some m)
      ∈ (StartMITMServer.iteration pr conn env).events ∧
    Event.readEncrypted "EveClient" cc.id (some (Frame.encrypted ct1 iv1)) (some m1)
      ∈ (StartMITMServer.iteration pr conn env).events := by
  have hs := NewDHSession_eq eA.Group.P eA.Group.G env.nextExp.1 hP
  have hs2 := NewDHSession_eq eA.Group.P eA.Group.G env.nextExp.2.nextDial.2.nextExp.1 hP
  have hk1 : eA.Group.P ^ env.nextExp.1 % eA.Group.P = 0 := modulus_pow_mod _ _ hexp1
  have hk2 : eA.Group.P ^ env.nextExp.2.nextDial.2.nextExp.1 % eA.Group.P = 0 :=
    modulus_pow_mod _ _ hexp2
  have hv0 : 0 < conn.writable := by omega
  have hv1 : 0 < conn.writable - 1 := by omega
  have hw0 : 0 < cc.writable := by omega
  have hw1 : 0 < cc.writable - 1 := by omega
  have hd := decoded_of_head pr ⟨"Eve", conn, none⟩ pA eA hin hdec
  have hdl : env.nextExp.2.nextDial.1 = some cc := hdial
  have hin2' : conn.incoming[1]? = some (Frame.encrypted ct iv) := by simpa using hin2
  have hcin2' : cc.incoming[1]? = some (Frame.encrypted ct1 iv1) := by simpa using hcin2
  have hm0 : pr.decrypt ((pr.hash (natBytes 0)).take 16) iv ct = some m := hm
  have hm10 : pr.decrypt ((pr.hash (natBytes 0)).take 16) iv1 ct1 = some m1 := hm1
  have hne' : cc.id ≠ conn.id := fun h => hne h.symm
  unfold StartMITMServer.iteration
  simp only [ReadMessage_result, ReadMessage_env, Send_env, hd, hs, hs2, hdl]
  simp only [henc]
  simp [DHClient.decoded, DHClient.sealed, DHClient.opened, DHSession.GenerateSessionKeys,
    DHSession.sharedSecret, hk1, hk2, hcin, hcdec, hv0, hv1, hw0, hw1, hin2', hcin2', hm0, hm10,
    degenerateKey, written, Event.writes, hne']
  simp [Env.nextIV, Env.nextExp, Env.nextDial]

/-- The relayed exchange: when `Client` is wired to the connection the relay
accepts, and the connection the relay dials to the handling of a connection
by `StartServer`, the codec and the cipher round-trip, every exponent drawn
is at least `1` and every stream takes two writes, all three finish without
error: the relay's `ReadEncrypted` returned the secret message on both legs
and `Client` reads back the secret message it sent. -/
theorem relayed_echo (pr : Primitives)
    (hrt : ∀ k iv m, pr.decrypt k iv (pr.encrypt k iv m) = some m)
    (hgob : ∀ e, ∃ b, pr.gobEncode e = some b ∧ pr.gobDecode b = some e)
    (envA envR envB : Env) (connA c1 c2 connB : Conn)
    (hdialA : envA.dials.headD none = some connA)
    (hdialR : envR.dials.headD none = some c2) (hne : c1.id ≠ c2.id)
    (hexpA : 1 ≤ envA.exps.headD 0) (hexpB : 1 ≤ envB.exps.headD 0)
    (hexp1 : 1 ≤ envR.exps.headD 0) (hexp2 : 1 ≤ envR.exps.tail.headD 0)
    (hwA : 2 ≤ connA.writable) (hw1 : 2 ≤ c1.writable) (hw2 : 2 ≤ c2.writable)
    (hwB : 2 ≤ connB.writable)
    (hA : connA.incoming = written c1.id (StartMITMServer.iteration pr c1 envR).events)
    (h1 : c1.incoming = written connA.id (Client pr envA).events)
    (h2 : c2.incoming = written connB.id (StartServer.iteration pr connB envB).events)
    (hB : connB.incoming = written c2.id (StartMITMServer.iteration pr c1 envR).events) :
    (Client pr envA).outcome = Outcome.ok ∧
    (StartMITMServer.iteration pr c1 envR).outcome = Outcome.ok ∧
    (StartServer.iteration pr connB envB).outcome = Outcome.ok ∧
    (∃ f, Event.readEncrypted "Eve" c1.id (some f) (some (bytesOf SECRET_MESSAGE))
      ∈ (StartMITMServer.iteration pr c1 envR).events) ∧
    (∃ f, Event.readEncrypted "EveClient" c2.id (some f) (some (bytesOf SECRET_MESSAGE))
      ∈ (StartMITMServer.iteration pr c1 envR).events) ∧
    ∃ f, f ∈ written c1.id (StartMITMServer.iteration pr c1 envR).events ∧
      Event.readEncrypted "Alice" connA.id (some f) (some (bytesOf SECRET_MESSAGE))
        ∈ (Client pr envA).events := by
  obtain ⟨bA, hencA, hdecA⟩ := hgob ⟨⟨37, 5⟩, 5 ^ envA.exps.headD 0 % 37⟩
  obtain ⟨bP, hencP, hdecP⟩ := hgob ⟨⟨37, 5⟩, 37⟩
  obtain ⟨bB, hencB, hdecB⟩ := hgob ⟨⟨37, 5⟩, 5 ^ envB.exps.headD 0 % 37⟩
  have h37 : (2 : Nat) < 37 := by decide
  have hkA : (pr.hash (natBytes (37 ^ envA.exps.headD 0 % 37))).take 16 = degenerateKey pr := by
    rw [modulus_pow_mod 37 _ hexpA]; rfl
  have hkB : (pr.hash (natBytes (37 ^ envB.exps.headD 0 % 37))).take 16 = degenerateKey pr := by
    rw [modulus_pow_mod 37 _ hexpB]; rfl
  have cf := Client_first_frame pr envA connA bA hencA hdialA (by omega)
  rw [← h1] at cf
  have rf := Relay_first_frame pr envR c1 bA bP _ cf hdecA h37 hencP (by omega)
  rw [← hA] at rf
  have rfd := Relay_first_frame_dialed pr envR c1 c2 bA bP _ cf hdecA h37 hencP hdialR hne
    (by omega)
  rw [← hB] at rfd
  have cw := Client_writes pr envA connA bA bP _ hencA hdialA hwA rf hdecP
  rw [← h1] at cw
  have sf := Server_first_frame pr envB connB bP bB _ rfd hdecP h37 hencB (by omega)
  rw [← h2] at sf
  have rfw := Relay_forwards pr envR c1 c2 bA bP bB _ _ (bytesOf SECRET_MESSAGE) _ _ cf hdecA
    h37 hencP hdialR hne hw2 hexp1 hexp2 sf hdecB (by rw [cw]; rfl) (by
      simp only []
      rw [hkA]
      exact hrt _ _ _)
  rw [← hB] at rfw
  have se := Server_echoes pr envB connB bP bB _ _ (bytesOf SECRET_MESSAGE) _ rfd hdecP h37
    hencB hwB (by rw [rfw]; rfl) (by
      simp only []
      rw [hkB]
      exact hrt _ _ _)
  have h2' := h2
  rw [se.2] at h2'
  have rr := Relay_returns pr envR c1 c2 bA bP bB _ _ (bytesOf SECRET_MESSAGE) _ _
    (bytesOf SECRET_MESSAGE) _ _ cf hdecA h37 hencP hdialR hne hw1 hw2 hexp1 hexp2 sf hdecB
    (by rw [cw]; rfl) (by
      simp only []
      rw [hkA]
      exact hrt _ _ _)
    (by rw [h2']; rfl) (by
      simp only []
      rw [hkB]
      exact hrt _ _ _)
  have hA' := hA
  rw [rr.2.1] at hA'
  have cr := Client_reads pr envA connA bA bP _ _ (bytesOf SECRET_MESSAGE) _ hencA hdialA hwA rf
    hdecP (by rw [hA']; rfl) (by
      simp only []
      rw [hkA]
      exact hrt _ _ _)
  refine ⟨cr.1, rr.1, se.1, ⟨_, rr.2.2.1⟩, ⟨_, rr.2.2.2⟩, _, ?_, cr.2.2⟩
  rw [rr.2.1]; simp

/-- The monitor rejects a `SendEncrypted` of a plaintext that was not read. -/
theorem passesPlaintext_rejects_other_plaintext :
    passesPlaintext id none
      [Event.readEncrypted "Bob" 1 none (some [1]), Event.sendEncrypted "Bob" 1 [2] none]
      = false := by
  decide

theorem samplePrimitives_roundtrip (k iv m : Bytes) :
    samplePrimitives.decrypt k iv (samplePrimitives.encrypt k iv m) = some m := by
  have h : ∀ c : Nat, ((fun x => x ^^^ c) ∘ fun x => x ^^^ c) = id := by
    intro c
    funext x
    simp [Nat.xor_cancel_right]
  simp [samplePrimitives, h]

theorem samplePrimitives_gob (e : DHExchange) :
    ∃ b, samplePrimitives.gobEncode e = some b ∧ samplePrimitives.gobDecode b = some e :=
  ⟨[e.Group.P, e.Group.G, e.PublicKey], rfl, rfl⟩

set_option maxHeartbeats 2000000 in
/-- C5: in every handling of a connection by `StartServer`, the plaintext
passed to `SendEncrypted` is the plaintext `ReadEncrypted` just returned on
that channel, and a handling without error ends with exactly that read and
that send; in every handling of a connection by `StartMITMServer`, each
plaintext passed to `SendEncrypted` on one leg is the plaintext
`ReadEncrypted` just returned on the other leg.  So, when the cipher and the
codec round-trip and the roles are wired to each other, `Client` reads back
the secret message it sent, directly and through the relay. -/
theorem echo_returns_plaintext (pr : Primitives) :
    (∀ (conn : Conn) (env : Env),
      passesPlaintext id none (StartServer.iteration pr conn env).events = true ∧
      ((StartServer.iteration pr conn env).outcome = Outcome.ok →
        ∃ f m f1, (StartServer.iteration pr conn env).events.drop 3
          = [Event.readEncrypted "Bob" conn.id f (some m),
             Event.sendEncrypted "Bob" conn.id m f1])) ∧
    (∀ (conn : Conn) (env : Env),
      passesPlaintext otherLeg none (StartMITMServer.iteration pr conn env).events = true) ∧
    ((∀ k iv m, pr.decrypt k iv (pr.encrypt k iv m) = some m) →
      (∀ e, ∃ b, pr.gobEncode e = some b ∧ pr.gobDecode b = some e) →
      ∀ (envA envB : Env) (connA connB : Conn),
        envA.dials.headD none = some connA → 2 ≤ connA.writable → 2 ≤ connB.writable →
        connA.incoming = written connB.id (StartServer.iteration pr connB envB).events →
        connB.incoming = written connA.id (Client pr envA).events →
        (Client pr envA).outcome = Outcome.ok ∧
        (StartServer.iteration pr connB envB).outcome = Outcome.ok ∧
        ∃ f, f ∈ written connB.id (StartServer.iteration pr connB envB).events ∧
          Event.sendEncrypted "Alice" connA.id (bytesOf SECRET_MESSAGE) (connB.incoming[1]?)
            ∈ (Client pr envA).events ∧
          Event.readEncrypted "Alice" connA.id (some f) (some (bytesOf SECRET_MESSAGE))
            ∈ (Client pr envA).events) ∧
    ((∀ k iv m, pr.decrypt k iv (pr.encrypt k iv m) = some m) →
      (∀ e, ∃ b, pr.gobEncode e = some b ∧ pr.gobDecode b = some e) →
      ∀ (envA envR envB : Env) (connA c1 c2 connB : Conn),
        envA.dials.headD none = some connA → envR.dials.headD none = some c2 →
        c1.id ≠ c2.id →
        1 ≤ envA.exps.headD 0 → 1 ≤ envB.exps.headD 0 →
        1 ≤ envR.exps.headD 0 → 1 ≤ envR.exps.tail.headD 0 →
        2 ≤ connA.writable → 2 ≤ c1.writable → 2 ≤ c2.writable → 2 ≤ connB.writable →
        connA.incoming = written c1.id (StartMITMServer.iteration pr c1 envR).events →
        c1.incoming = written connA.id (Client pr envA).events →
        c2.incoming = written connB.id (StartServer.iteration pr connB envB).events →
        connB.incoming = written c2.id (StartMITMServer.iteration pr c1 envR).events →
        (Client pr envA).outcome = Outcome.ok ∧
        (StartMITMServer.iteration pr c1 envR).outcome = Outcome.ok ∧
        (StartServer.iteration pr connB envB).outcome = Outcome.ok ∧
        (∃ f, Event.readEncrypted "Eve" c1.id (some f) (some (bytesOf SECRET_MESSAGE))
          ∈ (StartMITMServer.iteration pr c1 envR).events) ∧
        (∃ f, Event.readEncrypted "EveClient" c2.id (some f) (some (bytesOf SECRET_MESSAGE))
          ∈ (StartMITMServer.iteration pr c1 envR).events) ∧
        ∃ f, f ∈ written c1.id (StartMITMServer.iteration pr c1 envR).events ∧
          Event.readEncrypted "Alice" connA.id (some f) (some (bytesOf SECRET_MESSAGE))
            ∈ (Client pr envA).events) := by
  refine ⟨?_, ?_, ?_, ?_⟩
  · intro conn env
    unfold StartServer.iteration
    simp only []
    repeat' split
    all_goals simp_all [passesPlaintext]
  · intro conn env
    unfold StartMITMServer.iteration
    simp only []
    repeat' split
    all_goals simp_all [passesPlaintext, otherLeg]
  · intro hrt hgob envA envB connA connB hdial hwA hwB hA hB
    exact honest_echo pr hrt hgob envA envB connA connB hdial hwA hwB hA hB
  · intro hrt hgob envA envR envB connA c1 c2 connB hdA hdR hne hxA hxB hx1 hx2 hwA hw1 hw2
      hwB hA h1 h2 hB
    exact relayed_echo pr hrt hgob envA envR envB connA c1 c2 connB hdA hdR hne hxA hxB hx1 hx2
      hwA hw1 hw2 hwB hA h1 h2 hB

/-- C5 on the sample exchanges: the honest one and the relayed one. -/
theorem echo_returns_plaintext_witness :
    (∀ k iv m, samplePrimitives.decrypt k iv (samplePrimitives.encrypt k iv m) = some m) ∧
    (∀ e, ∃ b, samplePrimitives.gobEncode e = some b ∧
      samplePrimitives.gobDecode b = some e) ∧
    sampleAliceConn.incoming
      = written sampleBobConn.id
          (StartServer.iteration samplePrimitives sampleBobConn sampleBobEnv).events ∧
    sampleBobConn.incoming
      = written sampleAliceConn.id (Client samplePrimitives sampleAliceEnv).events ∧
    (Client samplePrimitives sampleAliceEnv).outcome = Outcome.ok ∧
    (∃ f, Event.readEncrypted "Alice" sampleAliceConn.id (some f)
        (some (bytesOf SECRET_MESSAGE)) ∈ (Client samplePrimitives sampleAliceEnv).events) ∧
    relayedAliceConn.incoming
      = written relayedEveConn.id
          (StartMITMServer.iteration samplePrimitives relayedEveConn relayedEveEnv).events ∧
    relayedEveConn.incoming
      = written relayedAliceConn.id (Client samplePrimitives relayedAliceEnv).events ∧
    relayedEveClientConn.incoming
      = written relayedBobConn.id
          (StartServer.iteration samplePrimitives relayedBobConn sampleBobEnv).events ∧
    relayedBobConn.incoming
      = written relayedEveClientConn.id
          (StartMITMServer.iteration samplePrimitives relayedEveConn relayedEveEnv).events ∧
    (Client samplePrimitives relayedAliceEnv).outcome = Outcome.ok ∧
    (∃ f, Event.readEncrypted "Eve" relayedEveConn.id (some f) (some (bytesOf SECRET_MESSAGE))
      ∈ (StartMITMServer.iteration samplePrimitives relayedEveConn relayedEveEnv).events) ∧
    (∃ f, Event.readEncrypted "Alice" relayedAliceConn.id (some f)
        (some (bytesOf SECRET_MESSAGE)) ∈ (Client samplePrimitives relayedAliceEnv).events) :=
  have honest := (echo_returns_plaintext samplePrimitives).2.2.1 samplePrimitives_roundtrip
    samplePrimitives_gob sampleAliceEnv sampleBobEnv sampleAliceConn sampleBobConn (by decide)
    (by decide) (by decide) (by decide) (by decide)
  have relayed := (echo_returns_plaintext samplePrimitives).2.2.2 samplePrimitives_roundtrip
    samplePrimitives_gob relayedAliceEnv relayedEveEnv sampleBobEnv relayedAliceConn
    relayedEveConn relayedEveClientConn relayedBobConn (by decide) (by decide) (by decide)
    (by decide) (by decide) (by decide) (by decide) (by decide) (by decide) (by decide)
    (by decide) (by decide) (by decide) (by decide) (by decide)
  ⟨samplePrimitives_roundtrip, samplePrimitives_gob, by decide, by decide, honest.1,
    ⟨_, honest.2.2.choose_spec.2.2⟩, by decide, by decide, by decide, by decide,
    relayed.1, relayed.2.2.2.1, ⟨_, relayed.2.2.2.2.2.choose_spec.2⟩⟩

end set_five
